import Mathlib

/-!
Verification of the timeline clip model and audio scheduler.

A shallow embedding, in Lean 4, of the clip-store operations in
`src/pages/index.js` (`handleSplitAudio`, `fixAudioTrackLayers`,
`autoReflowClips`, `handleClipUpdate`, the clip-creation part of
`handleMediaUpload`) and of the audio engine in
`src/components/AudioPlayer.js` / `src/unnamed/part_001`
(`visLen`, `clipEnd`, `inWindow`, `bufferOffsetFor`, `getBuffer`,
`startClip`, `stopAll`) and `fetchAudioArrayBufferWithFallback` from
`src/components/AudioClipWaveform.js` / `src/unnamed/part_001`.

Times, durations and gains are modelled as rationals (`ℚ`): the source
manipulates JS numbers with +, −, min, max and comparisons only, which
the rationals model exactly on every input considered here.
Identifiers and URLs are strings, as in the source.
-/

set_option linter.unusedVariables false

namespace CanvaEdit

/-- The clip kinds appearing in the source (`c.type` is one of
`"video" | "image" | "audio"`). -/

inductive ClipType
  | video
  | image
  | audio
  deriving DecidableEq, Repr

/-- A clip record, as built in `pages/index.js` (`handleMediaUpload`,
`handleSplitAudio`).  The fields not relevant to timing, layering or
playback (`fileName`, `mimeType`, `thumbnail`, `hasAudio`) are omitted;
`duration` is the asset duration (the spec's `assetDuration`). -/

structure Clip where
  id : String
  type : ClipType
  url : String
  duration : ℚ
  startTime : ℚ
  endTime : ℚ
  trimStart : ℚ
  trimEnd : ℚ
  track : ℕ
  gain : Option ℚ := none
  deriving DecidableEq, Repr

/-- Spec invariant 1: `trimStart ≥ 0 ∧ trimEnd ≥ 0 ∧ trimStart + trimEnd < assetDuration`. -/

def TrimOK (c : Clip) : Prop :=
  0 ≤ c.trimStart ∧ 0 ≤ c.trimEnd ∧ c.trimStart + c.trimEnd < c.duration

/-- Spec invariant 2: `endTime − startTime = assetDuration − trimStart − trimEnd`. -/

def PlacementOK (c : Clip) : Prop :=
  c.endTime - c.startTime = c.duration - c.trimStart - c.trimEnd

/-- Both spec invariants on a single clip. -/

def ClipInv (c : Clip) : Prop := TrimOK c ∧ PlacementOK c

instance : DecidablePred TrimOK := fun c => by unfold TrimOK; infer_instance

instance : DecidablePred PlacementOK := fun c => by unfold PlacementOK; infer_instance

instance : DecidablePred ClipInv := fun c => by unfold ClipInv; infer_instance

/-- `c.type === "video" || c.type === "image"` as used throughout `index.js`. -/

def isVisual (c : Clip) : Bool :=
  c.type == ClipType.video || c.type == ClipType.image

/-- `pages/index.js`, `handleSplitAudio` (lines 264–302).  JS finds the
first clip with the given id (`findIndex`) and splices two parts in its
place; if no clip matches, or the split point is within 0.05s of either
edge, the prior list is returned unchanged.  `now` stands for the
`Date.now()` suffix used to mint the two fresh ids. -/

def handleSplitAudio : List Clip → String → ℚ → String → List Clip
  | [], _clipId, _splitTime, _now => []
  | clip :: rest, clipId, splitTime, now =>
    if clip.id == clipId then
      if splitTime ≤ clip.startTime + 0.05 ∨ clip.endTime - 0.05 ≤ splitTime then
        clip :: rest
      else
        let splitRelative := clip.trimStart + (splitTime - clip.startTime)
        let firstPart : Clip :=
          { clip with
            id := clip.id ++ "-part1-" ++ now
            endTime := splitTime
            trimEnd := clip.duration - splitRelative }
        let secondPart : Clip :=
          { clip with
            id := clip.id ++ "-part2-" ++ now
            startTime := splitTime
            trimStart := splitRelative }
        firstPart :: secondPart :: rest
    else clip :: handleSplitAudio rest clipId splitTime now

/-- Comparison key of the JS sorts `(a, b) => a.startTime - b.startTime`. -/

def startLE (a b : Clip) : Prop := a.startTime ≤ b.startTime

instance : DecidableRel startLE := fun a b =>
  inferInstanceAs (Decidable (a.startTime ≤ b.startTime))

instance : IsTotal Clip startLE := ⟨fun a b => le_total a.startTime b.startTime⟩

instance : IsTrans Clip startLE := ⟨fun _a _b _c => le_trans⟩

/-- The stable JS `Array.prototype.sort` by `startTime` (stable since
ES2019); insertion sort with a non-strict comparison computes exactly the
stable sort: ties keep their input order. -/

def sortByStart (l : List Clip) : List Clip := List.insertionSort startLE l

/-- One step of the layer scan in `fixAudioTrackLayers`
(`pages/index.js` lines 309–320): place the clip in the first layer whose
last-placed clip's `endTime ≤` the candidate's `startTime`
(JS: `clip.startTime >= last.endTime`). -/

def layerAccepts (layer : List Clip) (clip : Clip) : Bool :=
  match layer.getLast? with
  | some last => last.endTime ≤ clip.startTime
  | none => false

/-- Scan the layers in order; append to the first accepting layer, or open
a new layer at the end (`if (!placed) layers.push([clip])`). -/

def placeClip : List (List Clip) → Clip → List (List Clip)
  | [], clip => [[clip]]
  | layer :: rest, clip =>
    if layerAccepts layer clip then (layer ++ [clip]) :: rest
    else layer :: placeClip rest clip

/-- `sorted.forEach(...)` of `fixAudioTrackLayers`: fold the sorted audio
clips into layers. -/

def buildLayers (sorted : List Clip) : List (List Clip) :=
  sorted.foldl placeClip []

/-- The `layered` intermediate of `fixAudioTrackLayers`
(`layers.flatMap((layer, i) => layer.map(clip => ({...clip, track: i})))`):
every audio clip tagged with its layer index. -/

def layeredClips (clipsArr : List Clip) : List Clip :=
  (buildLayers (sortByStart
      (clipsArr.filter (fun c => c.type == ClipType.audio)))).enum.flatMap
    (fun p => p.2.map (fun clip => { clip with track := p.1 }))

/-- The final merge of `fixAudioTrackLayers`: look the clip's id up in the
layered list and take that entry's `track`, else leave the clip alone. -/

def mergeTrack (layered : List Clip) (c : Clip) : Clip :=
  match layered.find? (fun a => a.id == c.id) with
  | some m => { c with track := m.track }
  | none => c

/-- `pages/index.js`, `fixAudioTrackLayers` (lines 304–330): sort the
audio clips by `startTime`, greedily assign layers, set `track` to the
layer index, and merge the new tracks back into the full list by id. -/

def fixAudioTrackLayers (clipsArr : List Clip) : List Clip :=
  clipsArr.map (mergeTrack (layeredClips clipsArr))

/-- The packing pass of `autoReflowClips` (`pages/index.js` lines 533–545):
`curTime` is the running cursor, each clip gets
`startTime := curTime`, `endTime := curTime + (duration − trimStart − trimEnd)`. -/

def packFrom (curTime : ℚ) : List Clip → List Clip
  | [] => []
  | clip :: rest =>
    let clipLength := clip.duration - clip.trimStart - clip.trimEnd
    { clip with startTime := curTime, endTime := curTime + clipLength }
      :: packFrom (curTime + clipLength) rest

/-- `pages/index.js`, `autoReflowClips` (lines 528–551): sort the
video/image clips by `startTime` (stable), pack them from 0, and append
the non-visual clips unchanged. -/

def autoReflowClips (inputClips : List Clip) : List Clip :=
  packFrom 0 (sortByStart (inputClips.filter isVisual))
    ++ inputClips.filter (fun c => !isVisual c)

/-- The `updates` object passed to `handleClipUpdate`; only the timeline
fields matter to the claims (in JS, `{...c, ...updates}` overrides exactly
the fields present in `updates`). -/

structure ClipUpdates where
  startTime : Option ℚ := none
  endTime : Option ℚ := none
  trimStart : Option ℚ := none
  trimEnd : Option ℚ := none
  deriving DecidableEq, Repr

/-- JS spread `{ ...c, ...updates }`. -/

def applyUpdates (c : Clip) (u : ClipUpdates) : Clip :=
  { c with
    startTime := u.startTime.getD c.startTime
    endTime := u.endTime.getD c.endTime
    trimStart := u.trimStart.getD c.trimStart
    trimEnd := u.trimEnd.getD c.trimEnd }

/-- `pages/index.js`, `handleClipUpdate` (lines 337–354): apply the update
to the matching clip; if the update touches `startTime`/`trimStart`/`trimEnd`
and the target is a video/image clip, reflow, otherwise return the mapped
list as is. -/

def handleClipUpdate (prev : List Clip) (clipId : String) (updates : ClipUpdates) :
    List Clip :=
  let target := prev.find? (fun c => c.id == clipId)
  let updated := prev.map (fun c => if c.id == clipId then applyUpdates c updates else c)
  let affectsTimeline :=
    updates.startTime.isSome || updates.trimStart.isSome || updates.trimEnd.isSome
  let isVisualTarget :=
    match target with
    | some t => isVisual t
    | none => false
  if affectsTimeline && isVisualTarget then autoReflowClips updated else updated

/-- `Math.max(...clips.map(c => c.endTime))` over a nonempty list, `0` for
an empty one (`handleMediaUpload`, lines 215–226). -/

def maxEndTime : List Clip → ℚ
  | [] => 0
  | c :: rest => rest.foldl (fun m x => max m x.endTime) c.endTime

/-- The `while (usedTracks.has(nextTrack)) nextTrack++` scan of
`handleMediaUpload` (lines 227–230), with fuel: some track below
`used.length + 1` is always free. -/

def nextFreeTrack (used : List ℕ) : ℕ :=
  go (used.length + 1) 0
where
  go : ℕ → ℕ → ℕ
    | 0, n => n
    | fuel + 1, n => if n ∈ used then go fuel (n + 1) else n

/-- The clip-creation tail of `handleMediaUpload` (`pages/index.js`
lines 209–259): a fresh clip with `trimStart = trimEnd = 0` and
`endTime = startTime + duration` is appended after the computed
`startTime`/`track`, and the whole list is re-layered. -/

def handleMediaUploadAdd (prev : List Clip) (id url : String) (ctype : ClipType)
    (duration : ℚ) : List Clip :=
  let startTime :=
    if isVisual { id := id, type := ctype, url := url, duration := duration,
                  startTime := 0, endTime := 0, trimStart := 0, trimEnd := 0,
                  track := 0 } then
      maxEndTime (prev.filter isVisual)
    else
      maxEndTime (prev.filter (fun c => c.type == ClipType.audio))
  let track :=
    if ctype == ClipType.audio then
      nextFreeTrack ((prev.filter (fun c => c.type == ClipType.audio)).map Clip.track)
    else 0
  let newClip : Clip :=
    { id := id, type := ctype, url := url, duration := duration,
      startTime := startTime, endTime := startTime + duration,
      trimStart := 0, trimEnd := 0, track := track }
  fixAudioTrackLayers (prev ++ [newClip])

/-! ## Audio engine (`components/AudioPlayer.js`, `unnamed/part_001`) -/

/-- `visLen` (`AudioPlayer.js` lines 63–68): each numeric field is clamped
to `≥ 0` (`Math.max(0, Number(x) || 0)`), and the visible length itself is
clamped to `≥ 0`. -/

def visLen (c : Clip) : ℚ :=
  max 0 (max 0 c.duration - max 0 c.trimStart - max 0 c.trimEnd)

/-- `clipEnd` (`AudioPlayer.js` lines 69–71): `c.endTime ?? c.startTime + visLen(c)`.
The clip records built by `pages/index.js` always carry `endTime`, so the
embedding's total `endTime` field is always the one taken. -/

def clipEnd (c : Clip) : ℚ := c.endTime

/-- `inWindow` (`AudioPlayer.js` lines 72–75). -/

def inWindow (c : Clip) (t : ℚ) : Prop :=
  0 < visLen c ∧ c.startTime ≤ t ∧ t < clipEnd c

instance (c : Clip) (t : ℚ) : Decidable (inWindow c t) := by
  unfold inWindow; infer_instance

/-- `bufferOffsetFor` (`AudioPlayer.js` lines 76–80):
`Math.max(0, Math.min(trimStart + (timelineT − startTime), trimStart + visLen − 0.001))`. -/

def bufferOffsetFor (c : Clip) (timelineT : ℚ) : ℚ :=
  let off := c.trimStart + (timelineT - c.startTime)
  let mx := c.trimStart + visLen c - 0.001
  max 0 (min off mx)

/-- The pure schedule computation of `startClip`
(`AudioPlayer.js` lines 155–173): the pre-decode gate `endTL ≤ startTL`,
then `offset`, `maxPlayable = max(0, buffer.duration − offset)`,
`dur = min(endTL − startTL, maxPlayable)`, and the `dur ≤ 0` skip.
Returns the `(offset, dur)` pair passed to `src.start`, or `none` when no
source is started.  `bufferDuration` is the decoded buffer's duration
(the asset's decodable length). -/

def scheduleParams (clip : Clip) (timelineNow bufferDuration : ℚ) : Option (ℚ × ℚ) :=
  let startTL := max timelineNow clip.startTime
  let endTL := clipEnd clip
  if endTL ≤ startTL then none
  else
    let offset := bufferOffsetFor clip startTL
    let maxPlayable := max 0 (bufferDuration - offset)
    let dur := min (endTL - startTL) maxPlayable
    if dur ≤ 0 then none else some (offset, dur)

/-- The per-source snapshot stored in the `active` map
(`AudioPlayer.js` lines 236–243). -/

structure ClipSnapshot where
  startTime : ℚ
  endTime : ℚ
  trimStart : ℚ
  trimEnd : ℚ
  url : String
  gain : Option ℚ
  deriving DecidableEq, Repr

def snapshotOf (c : Clip) : ClipSnapshot :=
  { startTime := c.startTime, endTime := c.endTime, trimStart := c.trimStart,
    trimEnd := c.trimEnd, url := c.url, gain := c.gain }

/-- One entry of the `active` map (`AudioPlayer.js` line 82): the playback
node itself is outside the model; the scheduled instants and the snapshot
are kept. -/

structure ActiveEntry where
  startedAtCtx : ℚ
  endsAtTimeline : ℚ
  clipSnapshot : ClipSnapshot
  deriving DecidableEq, Repr

/-- The mutable module state of `AudioPlayer.js` seen by `startClip` and
`stopAll`: the session token (`sessionRef`), the playing flag
(`isPlayingRef`), the `active` map (as an association list), and the
audio context clock `AC.currentTime`. -/

structure SchedState where
  session : ℕ
  playing : Bool
  active : List (String × ActiveEntry)
  ctxNow : ℚ
  deriving DecidableEq, Repr

/-- The pre-decode part of `startClip` (`AudioPlayer.js` lines 144–159):
skip when a source is already active or the window is empty; otherwise
issue the decode, capturing the session token passed in by the scheduling
tick (which reads `sessionRef.current` at call time).  Returns the
captured token when a decode is issued. -/

def startClipCall (st : SchedState) (clip : Clip) (timelineNow : ℚ) : Option ℕ :=
  if st.active.any (fun p => p.1 == clip.id) then none
  else if clipEnd clip ≤ max timelineNow clip.startTime then none
  else some st.session

/-- The decode-then-schedule continuation of `startClip`
(`AudioPlayer.js` lines 160–268), as a function of the state at resolve
time.  Guards: bail out if no longer playing or the session token moved
(lines 161–167), recheck just before scheduling (lines 183–190); on
success record the entry in `active` and return the `(offset, dur)`
passed to `src.start`. -/

def startClipResolve (st : SchedState) (clip : Clip) (timelineNow : ℚ)
    (sessionAtStart : ℕ) (bufferDuration : ℚ) : SchedState × Option (ℚ × ℚ) :=
  if !st.playing || st.session ≠ sessionAtStart then (st, none)
  else
    let startTL := max timelineNow clip.startTime
    let when := st.ctxNow + (startTL - timelineNow)
    let offset := bufferOffsetFor clip startTL
    let maxPlayable := max 0 (bufferDuration - offset)
    let dur := min (clipEnd clip - startTL) maxPlayable
    if dur ≤ 0 then (st, none)
    else if !st.playing || st.session ≠ sessionAtStart then (st, none)
    else
      let entry : ActiveEntry :=
        { startedAtCtx := when, endsAtTimeline := startTL + dur,
          clipSnapshot := snapshotOf clip }
      ({ st with active := (clip.id, entry) :: st.active }, some (offset, dur))

/-- `stopClip` (`AudioPlayer.js` lines 93–134): state effect is removing
the entry from `active`. -/

def stopClipOp (st : SchedState) (id : String) : SchedState :=
  { st with active := st.active.filter (fun p => !(p.1 == id)) }

/-- `stopAll` (`AudioPlayer.js` lines 137–141): stop every active handle. -/

def stopAllOp (st : SchedState) : SchedState :=
  { st with active := [] }

/-- The imperative-handle `stopAll` (`AudioPlayer.js` lines 298–301),
used on discrete seeks and unmount: bump the session token, then stop
everything. -/

def stopAllBump (st : SchedState) : SchedState :=
  stopAllOp { st with session := st.session + 1 }

/-- The play/pause effect (`AudioPlayer.js` lines 333–346): the token is
bumped on every toggle; on pause all sources are stopped. -/

def playPauseToggleOp (st : SchedState) (isPlaying : Bool) : SchedState :=
  let st' := { st with playing := isPlaying, session := st.session + 1 }
  if isPlaying then st' else stopAllOp st'

/-- The discrete-seek effect (`AudioPlayer.js` lines 349–355). -/

def seekOp (st : SchedState) : SchedState := stopAllBump st

/-- The unmount cleanup (`AudioPlayer.js` lines 415–420). -/

def unmountOp (st : SchedState) : SchedState := stopAllBump st

/-! ## Decode cache (`getBuffer`)

Two iterations of the cache live in the repository.
`components/AudioPlayer.js` lines 23–45 awaits the fetch and decode and
only then stores the result (`cache.set(url, decoded)` after the awaits);
`unnamed/part_001` lines 186–198 stores the in-flight promise itself
(`cache.set(url, p)` before it settles).  Both are modelled as small
state machines over the same event alphabet; `fetchLog` records one entry
per fetch-and-decode actually started. -/

/-- An event at the cache boundary: a caller invokes `getBuffer(url)`, or
a previously started fetch-and-decode for `url` settles. -/

inductive CacheEvent
  | call (url : String)
  | complete (url : String)
  deriving DecidableEq, Repr

/-- State of the `components/AudioPlayer.js` cache: `cache` holds the
urls whose decode has completed (`cache.set` runs only after the awaits);
`pending` holds the fetches still in flight. -/

structure CacheStateA where
  cache : List String
  pending : List String
  fetchLog : List String
  deriving DecidableEq, Repr

def CacheStateA.init : CacheStateA := { cache := [], pending := [], fetchLog := [] }

/-- `getBuffer` of `components/AudioPlayer.js`: a call that misses the
cache starts its own fetch-and-decode, even if one for the same url is
already pending; completion stores the decoded buffer. -/

def stepA (st : CacheStateA) : CacheEvent → CacheStateA
  | .call url =>
    if st.cache.contains url then st
    else { st with pending := url :: st.pending, fetchLog := url :: st.fetchLog }
  | .complete url =>
    if st.pending.contains url then
      { st with cache := url :: st.cache, pending := st.pending.erase url }
    else st

def runA (evs : List CacheEvent) : CacheStateA := evs.foldl stepA CacheStateA.init

/-- State of the `unnamed/part_001` cache: `cache` holds every url whose
promise has been stored, inflight or settled (`cache.set(url, p)` runs
before the promise resolves). -/

structure CacheStateB where
  cache : List String
  fetchLog : List String
  deriving DecidableEq, Repr

def CacheStateB.init : CacheStateB := { cache := [], fetchLog := [] }

/-- `getBuffer` of `unnamed/part_001`: a call that misses the cache stores
the in-flight promise at once, so any later call for the same url — even
a concurrent one — returns the stored operation; completion does not
touch the cache. -/

def stepB (st : CacheStateB) : CacheEvent → CacheStateB
  | .call url =>
    if st.cache.contains url then st
    else { st with cache := url :: st.cache, fetchLog := url :: st.fetchLog }
  | .complete _url => st

def runB (evs : List CacheEvent) : CacheStateB := evs.foldl stepB CacheStateB.init

/-! ## Fetch fallback chain (`fetchAudioArrayBufferWithFallback`,
`components/AudioClipWaveform.js` lines 18–49 and `unnamed/part_001`
lines 31–62) -/

/-- Outcome of one `fetch` attempt: a response with `resp.ok` and the
bytes, a response with `resp.ok === false`, or a thrown network error. -/

inductive FetchOutcome
  | ok (bytes : ℕ)
  | httpError (status : ℕ)
  | netError
  deriving DecidableEq, Repr

def FetchOutcome.success? : FetchOutcome → Option ℕ
  | .ok bytes => some bytes
  | _ => none

/-- The error finally thrown when the last (server-proxy) attempt fails:
either the `Proxy fetch failed ${status}` error minted for a non-ok
response, or the rethrown network error. -/

inductive FetchErr
  | proxyStatus (status : ℕ)
  | proxyNet
  deriving DecidableEq, Repr

/-- The third, server-side proxy attempt (`/api/proxy-audio` resp.
`/api/audio`): a non-ok response throws inside the `try`, and the `catch`
logs and rethrows, so any failure here propagates. -/

def tryServerProxy : FetchOutcome → Except FetchErr ℕ
  | .ok bytes => .ok bytes
  | .httpError status => .error (.proxyStatus status)
  | .netError => .error .proxyNet

/-- `fetchAudioArrayBufferWithFallback`: direct cross-origin fetch, then —
when `toS3ProxyPath` can parse the url (`s3Path` is `some`) — the
same-origin `/s3` proxy path, then the server-side proxy.  A thrown error
or non-ok response in the first two attempts falls through (logged and
swallowed); only the last attempt's failure propagates. -/

def fetchAudioArrayBufferWithFallback (s3Path : Option String)
    (direct s3 proxy : FetchOutcome) : Except FetchErr ℕ :=
  match direct.success? with
  | some bytes => .ok bytes
  | none =>
    match s3Path with
    | some _ =>
      match s3.success? with
      | some bytes => .ok bytes
      | none => tryServerProxy proxy
    | none => tryServerProxy proxy

/-- A clip used in the concrete split examples: an audio clip with
`assetDuration 10, trimStart 1, trimEnd 1, startTime 0, endTime 8`
(visible 0–8s), as in the spec's round-trip example. -/

def exampleSplitClip : Clip :=
  { id := "p", type := ClipType.audio, url := "u", duration := 10,
    startTime := 0, endTime := 8, trimStart := 1, trimEnd := 1, track := 0 }

/-! ## Scheduler start computation (claims C3, C10) -/

/-- Modelled from the claim's words, for comparison with the code's
`visLen`: `visibleLength = max(0, assetDuration − trimStart − trimEnd)`
on the raw (unclamped) fields. -/

def specVisibleLength (c : Clip) : ℚ :=
  max 0 (c.duration - c.trimStart - c.trimEnd)

/-- A clip that satisfies both store invariants but whose whole trimmed
region is shorter than the scheduler's 1ms guard margin. -/

def tinyClip : Clip :=
  { id := "tiny", type := ClipType.audio, url := "u", duration := 1/2000,
    startTime := 0, endTime := 1/2000, trimStart := 0, trimEnd := 0, track := 0 }

/-- The clip of the spec's scheduler example:
`{startTime 2, endTime 5, trimStart 0}`, with `trimEnd 0` and
`assetDuration 3` making its visible window the full 2–5s. -/

def exampleSchedClip : Clip :=
  { id := "s", type := ClipType.audio, url := "u", duration := 3,
    startTime := 2, endTime := 5, trimStart := 0, trimEnd := 0, track := 0 }

/-- A clip whose visible window is 0–1s with no trimming. -/

def lastMsClip : Clip :=
  { id := "m", type := ClipType.audio, url := "u", duration := 1,
    startTime := 0, endTime := 1, trimStart := 0, trimEnd := 0, track := 0 }

/-- Two video clips with equal `startTime 0` whose input order ("b" then
"a") disagrees with id order. -/

def tieA : Clip :=
  { id := "b", type := ClipType.video, url := "u", duration := 2,
    startTime := 0, endTime := 2, trimStart := 0, trimEnd := 0, track := 0 }

def tieB : Clip :=
  { id := "a", type := ClipType.video, url := "u", duration := 3,
    startTime := 0, endTime := 3, trimStart := 0, trimEnd := 0, track := 0 }

/-- Three video clips, the middle one with negative visible length
(`trimStart + trimEnd > duration`). -/

def negA : Clip :=
  { id := "p", type := ClipType.video, url := "u", duration := 5,
    startTime := 0, endTime := 5, trimStart := 0, trimEnd := 0, track := 0 }

def negB : Clip :=
  { id := "q", type := ClipType.video, url := "u", duration := 1,
    startTime := 1, endTime := 2, trimStart := 2, trimEnd := 2, track := 0 }

def negC : Clip :=
  { id := "r", type := ClipType.video, url := "u", duration := 4,
    startTime := 2, endTime := 6, trimStart := 0, trimEnd := 0, track := 0 }

/-- An invariant-satisfying audio clip, and a trim-only update to it. -/

def audioClipX : Clip :=
  { id := "a", type := ClipType.audio, url := "u", duration := 10,
    startTime := 0, endTime := 10, trimStart := 0, trimEnd := 0, track := 0 }

def updX : ClipUpdates := { trimStart := some 2 }

/-! ## Track layering (claim C6) -/

/-- The per-layer ordering established by the greedy scan: a clip placed
after another in the same layer starts no earlier than the other ends. -/

def LayerRel (a b : Clip) : Prop := a.endTime ≤ b.startTime

/-- The set of audio clips a `fixAudioTrackLayers` run starts from. -/

def audioSorted (x : List Clip) : List Clip :=
  sortByStart (x.filter (fun c => c.type == ClipType.audio))

/-- Two overlapping audio clips used as the layering witness input. -/

def wAudio1 : Clip :=
  { id := "a1", type := ClipType.audio, url := "u", duration := 5,
    startTime := 0, endTime := 5, trimStart := 0, trimEnd := 0, track := 0 }

def wAudio2 : Clip :=
  { id := "a2", type := ClipType.audio, url := "u", duration := 5,
    startTime := 2, endTime := 7, trimStart := 0, trimEnd := 0, track := 0 }

/-! ## Split (claims C1, C7) -/

lemma handleSplitAudio_not_found (prev : List Clip) (clipId : String)
    (splitTime : ℚ) (now : String) (h : ∀ c ∈ prev, c.id ≠ clipId) :
    handleSplitAudio prev clipId splitTime now = prev := by
  induction prev with
  | nil => rfl
  | cons c rest ih =>
    have hc : (c.id == clipId) = false := by
      exact beq_eq_false_iff_ne.mpr (h c (List.mem_cons_self c rest))
    simp only [handleSplitAudio, hc, Bool.false_eq_true, if_false, List.cons.injEq, true_and]
    exact ih fun x hx => h x (List.mem_cons_of_mem c hx)

lemma handleSplitAudio_edge (pre : List Clip) (c : Clip) (post : List Clip)
    (splitTime : ℚ) (now : String) (hpre : ∀ p ∈ pre, p.id ≠ c.id)
    (hedge : splitTime ≤ c.startTime + 0.05 ∨ c.endTime - 0.05 ≤ splitTime) :
    handleSplitAudio (pre ++ c :: post) c.id splitTime now = pre ++ c :: post := by
  induction pre with
  | nil =>
    simp only [List.nil_append, handleSplitAudio, beq_self_eq_true, if_true]
    rw [if_pos hedge]
  | cons p pre' ih =>
    have hp : (p.id == c.id) = false := by
      exact beq_eq_false_iff_ne.mpr (hpre p (List.mem_cons_self p pre'))
    simp only [List.cons_append, handleSplitAudio, hp, Bool.false_eq_true, if_false,
      List.cons.injEq, true_and]
    exact ih fun x hx => hpre x (List.mem_cons_of_mem p hx)

/-- C7: a split request whose split point is within the 0.05s edge
epsilon of the (first) target clip's `startTime` or `endTime`, or whose
clip id matches no clip, is a silent no-op: the resulting clip list
equals the prior list, with no clip partially mutated. -/

theorem claim7_split_edge_noop (prev : List Clip) (clipId : String)
    (splitTime : ℚ) (now : String)
    (h : (∀ c ∈ prev, c.id ≠ clipId) ∨
      ∃ pre c post, prev = pre ++ c :: post ∧ (∀ p ∈ pre, p.id ≠ clipId) ∧
        c.id = clipId ∧
        (splitTime ≤ c.startTime + 0.05 ∨ c.endTime - 0.05 ≤ splitTime)) :
    handleSplitAudio prev clipId splitTime now = prev := by
  rcases h with h | ⟨pre, c, post, rfl, hpre, rfl, hedge⟩
  · exact handleSplitAudio_not_found prev clipId splitTime now h
  · exact handleSplitAudio_edge pre c post splitTime now hpre hedge

/-- Witness for C7 at a concrete input: splitting the example clip at
0.03s (within 0.05s of its left edge) returns the list unchanged. -/

theorem claim7_split_edge_noop_witness :
    handleSplitAudio [exampleSplitClip] "p" 0.03 "t" = [exampleSplitClip] :=
  claim7_split_edge_noop [exampleSplitClip] "p" 0.03 "t"
    (Or.inr ⟨[], exampleSplitClip, [], rfl, by simp, rfl, Or.inl (by norm_num [exampleSplitClip])⟩)

lemma handleSplitAudio_found (pre : List Clip) (c : Clip) (post : List Clip)
    (splitTime : ℚ) (now : String) (hpre : ∀ p ∈ pre, p.id ≠ c.id)
    (hlo : c.startTime + 0.05 < splitTime) (hhi : splitTime < c.endTime - 0.05) :
    handleSplitAudio (pre ++ c :: post) c.id splitTime now =
      pre ++
        { c with
          id := c.id ++ "-part1-" ++ now
          endTime := splitTime
          trimEnd := c.duration - (c.trimStart + (splitTime - c.startTime)) } ::
        { c with
          id := c.id ++ "-part2-" ++ now
          startTime := splitTime
          trimStart := c.trimStart + (splitTime - c.startTime) } :: post := by
  induction pre with
  | nil =>
    simp only [List.nil_append, handleSplitAudio, beq_self_eq_true, if_true]
    rw [if_neg (by push_neg; exact ⟨lt_of_not_le fun h => absurd hlo (not_lt.mpr h), hhi⟩)]
  | cons p pre' ih =>
    have hp : (p.id == c.id) = false :=
      beq_eq_false_iff_ne.mpr (hpre p (List.mem_cons_self p pre'))
    simp only [List.cons_append, handleSplitAudio, hp, Bool.false_eq_true, if_false,
      List.cons.injEq, true_and]
    exact ih fun x hx => hpre x (List.mem_cons_of_mem p hx)

/-- C1 (amended): for a clip satisfying invariant 2 and a split time
strictly more than 0.05s inside both edges, `handleSplitAudio` replaces
the clip with exactly two new clips carrying the claimed trims and
placements, both satisfying invariant 2, together covering exactly the
parent's visible window. -/

theorem claim1_split_round_trip (pre : List Clip) (c : Clip) (post : List Clip)
    (splitTime : ℚ) (now : String) (hpre : ∀ p ∈ pre, p.id ≠ c.id)
    (hlo : c.startTime + 0.05 < splitTime) (hhi : splitTime < c.endTime - 0.05)
    (hplace : PlacementOK c) :
    ∃ firstPart secondPart,
      handleSplitAudio (pre ++ c :: post) c.id splitTime now =
        pre ++ firstPart :: secondPart :: post ∧
      firstPart.startTime = c.startTime ∧
      firstPart.endTime = splitTime ∧
      firstPart.trimStart = c.trimStart ∧
      firstPart.trimEnd = c.duration - (c.trimStart + (splitTime - c.startTime)) ∧
      secondPart.startTime = splitTime ∧
      secondPart.endTime = c.endTime ∧
      secondPart.trimStart = c.trimStart + (splitTime - c.startTime) ∧
      secondPart.trimEnd = c.trimEnd ∧
      firstPart.duration = c.duration ∧
      secondPart.duration = c.duration ∧
      PlacementOK firstPart ∧ PlacementOK secondPart := by
  refine ⟨_, _, handleSplitAudio_found pre c post splitTime now hpre hlo hhi,
    rfl, rfl, rfl, rfl, rfl, rfl, rfl, rfl, rfl, rfl, ?_, ?_⟩
  · unfold PlacementOK at *
    simp only
    ring
  · unfold PlacementOK at *
    simp only
    linarith

/-- C1 counterexample: the claim's own worked example is wrong about the
first child's `trimEnd`.  Splitting
`{assetDuration:10, trimStart:1, trimEnd:1, startTime:0, endTime:8}` at
timeline time 3 yields trims `(1, 6)` and `(4, 1)` — the code's
`trimEnd = 10 − (1 + 3) = 6`, not the `7` the claim states. -/

theorem claim1_example_counterexample :
    (handleSplitAudio [exampleSplitClip] "p" 3 "t").map
        (fun c => (c.trimStart, c.trimEnd)) = [(1, 6), (4, 1)] ∧ (6 : ℚ) ≠ 7 := by
  constructor
  · norm_num [handleSplitAudio, exampleSplitClip]
  · norm_num

/-- Witness for C1 at the spec's round-trip example input. -/

theorem claim1_split_round_trip_witness :
    (exampleSplitClip.startTime + 0.05 < 3 ∧ (3 : ℚ) < exampleSplitClip.endTime - 0.05 ∧
      PlacementOK exampleSplitClip) ∧
    ∃ firstPart secondPart,
      handleSplitAudio [exampleSplitClip] "p" 3 "t" = [firstPart, secondPart] ∧
      firstPart.startTime = exampleSplitClip.startTime ∧
      firstPart.endTime = 3 ∧
      firstPart.trimStart = exampleSplitClip.trimStart ∧
      firstPart.trimEnd = 6 ∧
      secondPart.startTime = 3 ∧
      secondPart.endTime = exampleSplitClip.endTime ∧
      secondPart.trimStart = 4 ∧
      secondPart.trimEnd = exampleSplitClip.trimEnd ∧
      PlacementOK firstPart ∧ PlacementOK secondPart := by
  have h := claim1_split_round_trip [] exampleSplitClip [] 3 "t" (by simp)
    (by norm_num [exampleSplitClip]) (by norm_num [exampleSplitClip])
    (by norm_num [PlacementOK, exampleSplitClip])
  refine ⟨⟨by norm_num [exampleSplitClip], by norm_num [exampleSplitClip],
    by norm_num [PlacementOK, exampleSplitClip]⟩, ?_⟩
  obtain ⟨f, s, heq, h1, h2, h3, h4, h5, h6, h7, h8, _, _, h9, h10⟩ := h
  exact ⟨f, s, by simpa using heq, h1, h2, h3, by rw [h4]; norm_num [exampleSplitClip],
    h5, h6, by rw [h7]; norm_num [exampleSplitClip], h8, h9, h10⟩

lemma visLen_le_specVisibleLength (c : Clip) : visLen c ≤ specVisibleLength c := by
  unfold visLen specVisibleLength
  have hts := le_max_right (0 : ℚ) c.trimStart
  have hte := le_max_right (0 : ℚ) c.trimEnd
  have hts0 := le_max_left (0 : ℚ) c.trimStart
  have hte0 := le_max_left (0 : ℚ) c.trimEnd
  rcases le_or_lt c.duration 0 with hd | hd
  · rw [max_eq_left hd]
    exact max_le (le_max_left _ _) (le_trans (by linarith) (le_max_left _ _))
  · rw [max_eq_right hd.le]
    exact max_le (le_max_left _ _) (le_trans (by linarith) (le_max_right _ _))

/-- C10 (amended): for every clip whose trimmed region is at least 1ms
long (`trimStart + visibleLength ≥ 0.001`), the asset offset — both
`bufferOffsetFor` at any timeline time and the offset `scheduleParams`
hands to the playback node — lies in
`[0, trimStart + visibleLength − 0.001]`, so a started source never
begins reading at or beyond the end of the trimmed audio. -/

theorem claim10_offset_clamped (c : Clip)
    (h : 0.001 ≤ c.trimStart + specVisibleLength c) :
    (∀ t, 0 ≤ bufferOffsetFor c t ∧
      bufferOffsetFor c t ≤ c.trimStart + specVisibleLength c - 0.001) ∧
    (∀ timelineNow bufferDuration offset dur,
      scheduleParams c timelineNow bufferDuration = some (offset, dur) →
        0 ≤ offset ∧ offset ≤ c.trimStart + specVisibleLength c - 0.001) := by
  have key : ∀ t, 0 ≤ bufferOffsetFor c t ∧
      bufferOffsetFor c t ≤ c.trimStart + specVisibleLength c - 0.001 := by
    intro t
    unfold bufferOffsetFor
    refine ⟨le_max_left _ _, ?_⟩
    refine max_le (by linarith) ?_
    have hle := visLen_le_specVisibleLength c
    calc min (c.trimStart + (t - c.startTime)) (c.trimStart + visLen c - 0.001)
        ≤ c.trimStart + visLen c - 0.001 := min_le_right _ _
      _ ≤ c.trimStart + specVisibleLength c - 0.001 := by linarith
  refine ⟨key, fun timelineNow bufferDuration offset dur hsome => ?_⟩
  simp only [scheduleParams] at hsome
  split_ifs at hsome
  simp only [Option.some.injEq, Prod.mk.injEq] at hsome
  rw [← hsome.1]
  exact key _

/-- C10 counterexample: on `tinyClip` (an invariant-satisfying clip with
a 0.5ms asset) the scheduler starts a source whose offset `0` is *not*
within the claimed interval `[0, trimStart + visibleLength − 0.001]` —
that interval is empty, and the offset equals the end of the trimmed
region instead of staying below it. -/

theorem claim10_counterexample :
    ClipInv tinyClip ∧
    scheduleParams tinyClip 0 (1/2000) = some (0, 1/2000) ∧
    ¬(bufferOffsetFor tinyClip 0 ≤
        tinyClip.trimStart + specVisibleLength tinyClip - 0.001) := by
  refine ⟨⟨?_, ?_⟩, ?_, ?_⟩
  · norm_num [TrimOK, tinyClip]
  · norm_num [PlacementOK, tinyClip]
  · norm_num [scheduleParams, bufferOffsetFor, visLen, clipEnd, tinyClip]
  · norm_num [bufferOffsetFor, visLen, specVisibleLength, tinyClip]

/-- Witness for C10: at the example clip `{startTime 2, endTime 5,
trimStart 0, trimEnd 0, assetDuration 3}` and timeline time 10 (past the
visible end), the offset is clamped into the claimed interval. -/

theorem claim10_offset_clamped_witness :
    (0.001 ≤ exampleSchedClip.trimStart + specVisibleLength exampleSchedClip) ∧
    (0 ≤ bufferOffsetFor exampleSchedClip 10 ∧
      bufferOffsetFor exampleSchedClip 10 ≤
        exampleSchedClip.trimStart + specVisibleLength exampleSchedClip - 0.001) :=
  ⟨by norm_num [specVisibleLength, exampleSchedClip],
    (claim10_offset_clamped exampleSchedClip
      (by norm_num [specVisibleLength, exampleSchedClip])).1 10⟩

/-- C3 (amended): when the scheduler starts a clip with well-formed trims
(`trimStart, trimEnd ≥ 0`, `trimStart + trimEnd ≤ assetDuration`), with
the decoded buffer's duration equal to the asset duration, at a schedule
time `t` inside the clip's window *and at least 1ms before the visible
end* (`t − startTime ≤ visLen − 0.001` — closer to the end the offset is
clamped), it computes `assetOffset = trimStart + (t − startTime)` and
`playDuration = min(endTime − t, assetDuration − assetOffset)` and starts
the source with exactly those parameters; and, for every clip and time,
no source is started when the computed play duration is ≤ 0. -/

theorem claim3_schedule_computation (c : Clip) (t bd : ℚ)
    (hts : 0 ≤ c.trimStart) (hte : 0 ≤ c.trimEnd)
    (hsum : c.trimStart + c.trimEnd ≤ c.duration) (hbd : bd = c.duration)
    (h1 : c.startTime ≤ t) (h2 : t - c.startTime ≤ visLen c - 0.001)
    (h3 : t < c.endTime) :
    scheduleParams c t bd =
      some (c.trimStart + (t - c.startTime),
        min (c.endTime - t) (c.duration - (c.trimStart + (t - c.startTime)))) ∧
    (∀ (c' : Clip) (tn bd' : ℚ),
      min (clipEnd c' - max tn c'.startTime)
          (max 0 (bd' - bufferOffsetFor c' (max tn c'.startTime))) ≤ 0 →
        scheduleParams c' tn bd' = none) := by
  constructor
  · have hd0 : (0 : ℚ) ≤ c.duration := by linarith
    have hvis : visLen c = c.duration - c.trimStart - c.trimEnd := by
      unfold visLen
      rw [max_eq_right hts, max_eq_right hte, max_eq_right hd0]
      exact max_eq_right (by linarith)
    rw [hvis] at h2
    have hstart : max t c.startTime = t := max_eq_left h1
    have hoffle : c.trimStart + (t - c.startTime) ≤
        c.trimStart + visLen c - 0.001 := by rw [hvis]; linarith
    have hoffpos : (0 : ℚ) ≤ c.trimStart + (t - c.startTime) := by linarith
    have hcap : (0 : ℚ) ≤ c.duration - (c.trimStart + (t - c.startTime)) := by
      linarith
    have hdurpos : (0 : ℚ) < min (c.endTime - t)
        (c.duration - (c.trimStart + (t - c.startTime))) :=
      lt_min (by linarith) (by linarith)
    simp only [scheduleParams, bufferOffsetFor, clipEnd, hstart, hbd]
    rw [min_eq_left hoffle, max_eq_right hoffpos, max_eq_right hcap,
      if_neg (not_le.mpr h3), if_neg (not_le.mpr hdurpos)]
  · intro c' tn bd' hdur
    simp only [scheduleParams]
    rcases le_or_lt (clipEnd c') (max tn c'.startTime) with hend | hend
    · rw [if_pos hend]
    · rw [if_neg (not_le.mpr hend), if_pos hdur]

/-- C3 counterexample: at `t = 0.9995`, inside `lastMsClip`'s window, the
scheduler does *not* compute `assetOffset = trimStart + (t − startTime) =
0.9995`; the offset is clamped to `0.999` (1ms short of the trimmed end),
so the claimed unconditional formula is false. -/

theorem claim3_counterexample :
    inWindow lastMsClip (1999/2000) ∧
    scheduleParams lastMsClip (1999/2000) 1 = some (999/1000, 1/2000) ∧
    (999/1000 : ℚ) ≠ lastMsClip.trimStart + (1999/2000 - lastMsClip.startTime) := by
  refine ⟨?_, ?_, ?_⟩
  · norm_num [inWindow, visLen, clipEnd, lastMsClip]
  · norm_num [scheduleParams, bufferOffsetFor, visLen, clipEnd, lastMsClip]
  · norm_num [lastMsClip]

/-- Witness for C3 at the spec's own examples: clip
`{startTime 2, endTime 5, trimStart 0}`; schedule time 2 gives
`(assetOffset, playDuration) = (0, 3)`, schedule time 4 gives `(2, 1)`. -/

theorem claim3_schedule_computation_witness :
    scheduleParams exampleSchedClip 2 3 = some (0, 3) ∧
    scheduleParams exampleSchedClip 4 3 = some (2, 1) := by
  have ha := (claim3_schedule_computation exampleSchedClip 2 3
    (by norm_num [exampleSchedClip]) (by norm_num [exampleSchedClip])
    (by norm_num [exampleSchedClip]) (by norm_num [exampleSchedClip])
    (by norm_num [exampleSchedClip]) (by norm_num [visLen, exampleSchedClip])
    (by norm_num [exampleSchedClip])).1
  have hb := (claim3_schedule_computation exampleSchedClip 4 3
    (by norm_num [exampleSchedClip]) (by norm_num [exampleSchedClip])
    (by norm_num [exampleSchedClip]) (by norm_num [exampleSchedClip])
    (by norm_num [exampleSchedClip]) (by norm_num [visLen, exampleSchedClip])
    (by norm_num [exampleSchedClip])).1
  constructor
  · rw [ha]; norm_num [exampleSchedClip]
  · rw [hb]; norm_num [exampleSchedClip]

/-! ## Session-token race guard (claim C4) -/

/-- C4: the decode-then-schedule continuation of `startClip` captures the
session token at call time; if the token has moved before the decode
resolves — and every play/pause toggle, discrete seek, external `stopAll`
and unmount bumps it — the continuation aborts with no side effects: the
state is returned unchanged, no playback node is started, and the active
map gains no handle for the clip under the stale token. -/

theorem claim4_stale_session_abort (st0 : SchedState) (clip : Clip)
    (timelineNow : ℚ) (tok : ℕ) (hcap : startClipCall st0 clip timelineNow = some tok)
    (st1 : SchedState) (hstale : st1.session ≠ tok) :
    (∀ bufferDuration,
      startClipResolve st1 clip timelineNow tok bufferDuration = (st1, none)) ∧
    tok = st0.session ∧
    (∀ st : SchedState, (stopAllBump st).session = st.session + 1 ∧
      (stopAllBump st).active = [] ∧
      (seekOp st).session = st.session + 1 ∧
      (unmountOp st).session = st.session + 1 ∧
      ∀ b, (playPauseToggleOp st b).session = st.session + 1) := by
  refine ⟨?_, ?_, ?_⟩
  · intro bufferDuration
    unfold startClipResolve
    rw [if_pos]
    simp [hstale]
  · unfold startClipCall at hcap
    split_ifs at hcap
    exact (Option.some.injEq _ _ ▸ hcap.symm)
  · intro st
    refine ⟨rfl, rfl, rfl, rfl, fun b => ?_⟩
    unfold playPauseToggleOp stopAllOp
    rcases b with _ | _ <;> rfl

/-- Witness for C4: a concrete start at session token 0, resolved after a
discrete seek bumped the token to 1, leaves the state untouched and
starts nothing. -/

theorem claim4_stale_session_abort_witness :
    (startClipCall { session := 0, playing := true, active := [], ctxNow := 0 }
        exampleSchedClip 2 = some 0) ∧
    (startClipResolve (seekOp { session := 0, playing := true, active := [], ctxNow := 0 })
        exampleSchedClip 2 0 3 =
      (seekOp { session := 0, playing := true, active := [], ctxNow := 0 }, none)) := by
  have hcall : startClipCall { session := 0, playing := true, active := [], ctxNow := 0 }
      exampleSchedClip 2 = some 0 := by
    norm_num [startClipCall, clipEnd, exampleSchedClip]
  refine ⟨hcall, ?_⟩
  exact (claim4_stale_session_abort
    { session := 0, playing := true, active := [], ctxNow := 0 } exampleSchedClip 2 0 hcall
    (seekOp { session := 0, playing := true, active := [], ctxNow := 0 })
    (by norm_num [seekOp, stopAllBump, stopAllOp])).1 3

/-! ## Decode-cache deduplication (claim C8) -/

lemma stepB_cache_monotone (st : CacheStateB) (ev : CacheEvent) (url : String)
    (h : url ∈ st.cache) : url ∈ (stepB st ev).cache := by
  cases ev with
  | call u =>
    by_cases hc : u ∈ st.cache
    · simpa [stepB, List.elem_iff, hc] using h
    · simp only [stepB, List.elem_iff, hc, if_false]
      exact List.mem_cons_of_mem u h
  | complete u => simpa [stepB] using h

lemma stepB_count_invariant (st : CacheStateB) (ev : CacheEvent) (url : String)
    (h : st.fetchLog.count url ≤ (if url ∈ st.cache then 1 else 0)) :
    (stepB st ev).fetchLog.count url ≤
      (if url ∈ (stepB st ev).cache then 1 else 0) := by
  cases ev with
  | call u =>
    by_cases hc : u ∈ st.cache
    · simpa [stepB, List.elem_iff, hc] using h
    · simp only [stepB, List.elem_iff, hc, if_false]
      by_cases hu : u = url
      · subst hu
        have h0 : st.fetchLog.count u = 0 := by
          rw [if_neg hc] at h
          omega
        simp [List.count_cons, h0, List.mem_cons]
      · have hne : ¬(url = u) := fun hh => hu hh.symm
        have hcc : (url ∈ u :: st.cache) ↔ (url ∈ st.cache) := by
          simp [List.mem_cons, hne]
        rw [if_congr hcc rfl rfl]
        have hcount : (u :: st.fetchLog).count url = st.fetchLog.count url :=
          List.count_cons_of_ne (fun hh => hu hh.symm) _
        rw [hcount]
        exact h
  | complete u => simpa [stepB] using h

lemma runB_aux (evs : List CacheEvent) (st : CacheStateB) (url : String)
    (h : st.fetchLog.count url ≤ (if url ∈ st.cache then 1 else 0)) :
    (evs.foldl stepB st).fetchLog.count url ≤ 1 := by
  induction evs generalizing st with
  | nil =>
    simp only [List.foldl_nil]
    split_ifs at h with hc
    · exact h
    · omega
  | cons ev rest ih =>
    simp only [List.foldl_cons]
    exact ih (stepB st ev) (stepB_count_invariant st ev url h)

/-- C8 (amended): the `unnamed/part_001` iteration of `getBuffer` caches
the in-flight operation itself (`cache.set(url, p)` before the promise
settles), so over any sequence of calls and completions at most one
fetch-and-decode is started per `sourceRef`, and a call that hits the
cache — even while the cached operation is still in flight — starts no
fetch and is answered from the cache.  The `components/AudioPlayer.js`
iteration only deduplicates calls made after a completed decode: a hit on
its completed-buffer cache never starts a fetch. -/

theorem claim8_inflight_dedup :
    (∀ (evs : List CacheEvent) (url : String),
      (runB evs).fetchLog.count url ≤ 1) ∧
    (∀ (st : CacheStateB) (url : String), url ∈ st.cache →
      (stepB st (CacheEvent.call url)).fetchLog = st.fetchLog ∧
      (stepB st (CacheEvent.call url)).cache = st.cache) ∧
    (∀ (st : CacheStateA) (url : String), url ∈ st.cache →
      (stepA st (CacheEvent.call url)).fetchLog = st.fetchLog) := by
  refine ⟨fun evs url => runB_aux evs CacheStateB.init url (by simp [CacheStateB.init]),
    fun st url h => ?_, fun st url h => ?_⟩
  · constructor <;> simp [stepB, List.elem_iff, h]
  · simp [stepA, List.elem_iff, h]

/-- C8 counterexample: with the `components/AudioPlayer.js` `getBuffer`
(which stores the decoded result only after the awaits), a second
`getBuffer("u")` issued while the first is still in flight starts its own
fetch-and-decode: two concurrent calls for the same `sourceRef` log two
fetches, not at most one. -/

theorem claim8_counterexample :
    (runA [CacheEvent.call "u", CacheEvent.call "u"]).fetchLog = ["u", "u"] ∧
    ¬((runA [CacheEvent.call "u", CacheEvent.call "u"]).fetchLog.count "u" ≤ 1) := by
  constructor
  · rfl
  · decide

/-! ## Fetch fallback chain (claim C9) -/

/-- C9: `fetchAudioArrayBufferWithFallback` tries the direct cross-origin
fetch, then the same-origin `/s3` proxy path (when the url parses), then
the server-side proxy; the bytes of the first successful response are
returned (earlier failures — thrown errors or non-ok statuses — are
logged and swallowed), and an error propagates to the caller exactly when
every attempt made has failed. -/

theorem claim9_fetch_fallback_chain (s3Path : Option String)
    (direct s3 proxy : FetchOutcome) :
    (∀ b, direct = .ok b →
      fetchAudioArrayBufferWithFallback s3Path direct s3 proxy = .ok b) ∧
    (∀ b p, direct.success? = none → s3Path = some p → s3 = .ok b →
      fetchAudioArrayBufferWithFallback s3Path direct s3 proxy = .ok b) ∧
    (∀ b, direct.success? = none → (s3Path = none ∨ s3.success? = none) →
      proxy = .ok b →
      fetchAudioArrayBufferWithFallback s3Path direct s3 proxy = .ok b) ∧
    (∀ e, fetchAudioArrayBufferWithFallback s3Path direct s3 proxy = .error e →
      direct.success? = none ∧ (s3Path = none ∨ s3.success? = none) ∧
        proxy.success? = none) ∧
    (direct.success? = none → (s3Path = none ∨ s3.success? = none) →
      proxy.success? = none →
      ∃ e, fetchAudioArrayBufferWithFallback s3Path direct s3 proxy = .error e) := by
  refine ⟨?_, ?_, ?_, ?_, ?_⟩
  · rintro b rfl
    rfl
  · rintro b p hd rfl rfl
    cases direct with
    | ok bb => exact absurd hd (by simp [FetchOutcome.success?])
    | httpError s => rfl
    | netError => rfl
  · rintro b hd hs rfl
    cases direct with
    | ok bb => exact absurd hd (by simp [FetchOutcome.success?])
    | httpError s0 =>
      rcases hs with rfl | hs
      · rfl
      · cases s3Path with
        | none => rfl
        | some p =>
          cases s3 with
          | ok bb => exact absurd hs (by simp [FetchOutcome.success?])
          | httpError s1 => rfl
          | netError => rfl
    | netError =>
      rcases hs with rfl | hs
      · rfl
      · cases s3Path with
        | none => rfl
        | some p =>
          cases s3 with
          | ok bb => exact absurd hs (by simp [FetchOutcome.success?])
          | httpError s1 => rfl
          | netError => rfl
  · intro e he
    cases direct with
    | ok bb => exact absurd he (by simp [fetchAudioArrayBufferWithFallback, FetchOutcome.success?])
    | httpError s0 =>
      refine ⟨rfl, ?_⟩
      cases s3Path with
      | none =>
        refine ⟨Or.inl rfl, ?_⟩
        cases proxy with
        | ok bb =>
          exact absurd he (by simp [fetchAudioArrayBufferWithFallback,
            FetchOutcome.success?, tryServerProxy])
        | httpError s1 => rfl
        | netError => rfl
      | some p =>
        cases s3 with
        | ok bb =>
          exact absurd he (by simp [fetchAudioArrayBufferWithFallback,
            FetchOutcome.success?])
        | httpError s1 =>
          refine ⟨Or.inr rfl, ?_⟩
          cases proxy with
          | ok bb =>
            exact absurd he (by simp [fetchAudioArrayBufferWithFallback,
              FetchOutcome.success?, tryServerProxy])
          | httpError s2 => rfl
          | netError => rfl
        | netError =>
          refine ⟨Or.inr rfl, ?_⟩
          cases proxy with
          | ok bb =>
            exact absurd he (by simp [fetchAudioArrayBufferWithFallback,
              FetchOutcome.success?, tryServerProxy])
          | httpError s2 => rfl
          | netError => rfl
    | netError =>
      refine ⟨rfl, ?_⟩
      cases s3Path with
      | none =>
        refine ⟨Or.inl rfl, ?_⟩
        cases proxy with
        | ok bb =>
          exact absurd he (by simp [fetchAudioArrayBufferWithFallback,
            FetchOutcome.success?, tryServerProxy])
        | httpError s1 => rfl
        | netError => rfl
      | some p =>
        cases s3 with
        | ok bb =>
          exact absurd he (by simp [fetchAudioArrayBufferWithFallback,
            FetchOutcome.success?])
        | httpError s1 =>
          refine ⟨Or.inr rfl, ?_⟩
          cases proxy with
          | ok bb =>
            exact absurd he (by simp [fetchAudioArrayBufferWithFallback,
              FetchOutcome.success?, tryServerProxy])
          | httpError s2 => rfl
          | netError => rfl
        | netError =>
          refine ⟨Or.inr rfl, ?_⟩
          cases proxy with
          | ok bb =>
            exact absurd he (by simp [fetchAudioArrayBufferWithFallback,
              FetchOutcome.success?, tryServerProxy])
          | httpError s2 => rfl
          | netError => rfl
  · intro hd hs hp
    have hproxy : ∃ e, tryServerProxy proxy = .error e := by
      cases proxy with
      | ok bb => exact absurd hp (by simp [FetchOutcome.success?])
      | httpError s1 => exact ⟨.proxyStatus s1, rfl⟩
      | netError => exact ⟨.proxyNet, rfl⟩
    obtain ⟨e, hee⟩ := hproxy
    refine ⟨e, ?_⟩
    cases direct with
    | ok bb => exact absurd hd (by simp [FetchOutcome.success?])
    | httpError s0 =>
      rcases hs with rfl | hs
      · exact hee
      · cases s3Path with
        | none => exact hee
        | some p =>
          cases s3 with
          | ok bb => exact absurd hs (by simp [FetchOutcome.success?])
          | httpError s1 => exact hee
          | netError => exact hee
    | netError =>
      rcases hs with rfl | hs
      · exact hee
      · cases s3Path with
        | none => exact hee
        | some p =>
          cases s3 with
          | ok bb => exact absurd hs (by simp [FetchOutcome.success?])
          | httpError s1 => exact hee
          | netError => exact hee

/-- Witness for C9: direct fetch fails with a network error, the `/s3`
proxy answers 403, the server proxy succeeds — the caller receives the
server proxy's bytes. -/

theorem claim9_fetch_fallback_chain_witness :
    fetchAudioArrayBufferWithFallback (some "/s3/a.mp3") FetchOutcome.netError
      (FetchOutcome.httpError 403) (FetchOutcome.ok 7) = .ok 7 :=
  (claim9_fetch_fallback_chain (some "/s3/a.mp3") FetchOutcome.netError
    (FetchOutcome.httpError 403) (FetchOutcome.ok 7)).2.2.1 7 rfl
    (Or.inr rfl) rfl

/-! ## Reflow lemmas (claims C5, C2) -/

lemma Clip.update_self (c : Clip) {s e : ℚ} (h1 : s = c.startTime)
    (h2 : e = c.endTime) : { c with startTime := s, endTime := e } = c := by
  subst h1
  subst h2
  rfl

/-- Every packed clip keeps the identity, kind and trim data of an input
clip. -/

lemma packFrom_mem_exists {cur : ℚ} {l : List Clip} {c' : Clip}
    (h : c' ∈ packFrom cur l) :
    ∃ c ∈ l, c'.id = c.id ∧ c'.type = c.type ∧ c'.url = c.url ∧
      c'.duration = c.duration ∧ c'.trimStart = c.trimStart ∧
      c'.trimEnd = c.trimEnd ∧ c'.track = c.track ∧ c'.gain = c.gain := by
  induction l generalizing cur with
  | nil => simp [packFrom] at h
  | cons c rest ih =>
    simp only [packFrom, List.mem_cons] at h
    rcases h with rfl | h
    · exact ⟨c, List.mem_cons_self c rest, rfl, rfl, rfl, rfl, rfl, rfl, rfl, rfl⟩
    · obtain ⟨c0, hc0, hprops⟩ := ih h
      exact ⟨c0, List.mem_cons_of_mem c hc0, hprops⟩

lemma packFrom_map_id (cur : ℚ) (l : List Clip) :
    (packFrom cur l).map Clip.id = l.map Clip.id := by
  induction l generalizing cur with
  | nil => rfl
  | cons c rest ih => simp [packFrom, ih]

/-- Invariant 2 holds for every packed clip: `endTime` is recomputed as
`startTime + (duration − trimStart − trimEnd)`. -/

lemma packFrom_endTime {cur : ℚ} {l : List Clip} {c' : Clip}
    (h : c' ∈ packFrom cur l) :
    c'.endTime = c'.startTime + (c'.duration - c'.trimStart - c'.trimEnd) := by
  induction l generalizing cur with
  | nil => simp [packFrom] at h
  | cons c rest ih =>
    simp only [packFrom, List.mem_cons] at h
    rcases h with rfl | h
    · simp
    · exact ih h

lemma packFrom_head_start {cur : ℚ} {l : List Clip} {c' : Clip} {rest' : List Clip}
    (h : packFrom cur l = c' :: rest') : c'.startTime = cur := by
  cases l with
  | nil => simp [packFrom] at h
  | cons c rest =>
    simp only [packFrom, List.cons.injEq] at h
    rw [← h.1]

/-- Consecutive packed clips are adjacent: each one starts exactly where
the previous one ends. -/

lemma packFrom_chain (cur : ℚ) (l : List Clip) :
    List.Chain' (fun a b => b.startTime = a.endTime) (packFrom cur l) := by
  induction l generalizing cur with
  | nil => simp [packFrom]
  | cons c rest ih =>
    simp only [packFrom]
    rw [List.chain'_cons']
    refine ⟨?_, ih _⟩
    intro y hy
    cases hrest : packFrom (cur + (c.duration - c.trimStart - c.trimEnd)) rest with
    | nil => rw [hrest] at hy; simp at hy
    | cons y0 rest0 =>
      rw [hrest] at hy
      simp only [List.head?_cons, Option.mem_def, Option.some.injEq] at hy
      subst hy
      rw [packFrom_head_start hrest]

lemma packFrom_start_ge {cur : ℚ} {l : List Clip}
    (hlen : ∀ c ∈ l, 0 ≤ c.duration - c.trimStart - c.trimEnd) :
    ∀ c' ∈ packFrom cur l, cur ≤ c'.startTime := by
  induction l generalizing cur with
  | nil => simp [packFrom]
  | cons c rest ih =>
    intro c' hc'
    simp only [packFrom, List.mem_cons] at hc'
    rcases hc' with rfl | hc'
    · simp
    · have h0 : 0 ≤ c.duration - c.trimStart - c.trimEnd :=
        hlen c (List.mem_cons_self c rest)
      have := ih (fun a ha => hlen a (List.mem_cons_of_mem c ha)) c' hc'
      linarith

/-- With nonnegative visible lengths the packed list is sorted by
`startTime`. -/

lemma packFrom_sorted {cur : ℚ} {l : List Clip}
    (hlen : ∀ c ∈ l, 0 ≤ c.duration - c.trimStart - c.trimEnd) :
    List.Sorted startLE (packFrom cur l) := by
  induction l generalizing cur with
  | nil => simp [packFrom, List.Sorted]
  | cons c rest ih =>
    simp only [packFrom]
    rw [List.sorted_cons]
    refine ⟨?_, ih fun a ha => hlen a (List.mem_cons_of_mem c ha)⟩
    intro b hb
    have h0 : 0 ≤ c.duration - c.trimStart - c.trimEnd :=
      hlen c (List.mem_cons_self c rest)
    have := packFrom_start_ge (fun a ha => hlen a (List.mem_cons_of_mem c ha)) b hb
    unfold startLE
    simp only
    linarith

/-- Re-packing a packed list from the same cursor changes nothing. -/

lemma packFrom_packFrom (cur : ℚ) (l : List Clip) :
    packFrom cur (packFrom cur l) = packFrom cur l := by
  induction l generalizing cur with
  | nil => rfl
  | cons c rest ih =>
    simp only [packFrom, List.cons.injEq]
    exact ⟨trivial, ih _⟩

lemma isVisual_of_type_eq {a b : Clip} (h : a.type = b.type) :
    isVisual a = isVisual b := by
  unfold isVisual
  rw [h]

lemma mem_sortByStart {c : Clip} {l : List Clip} :
    c ∈ sortByStart l ↔ c ∈ l :=
  (List.perm_insertionSort startLE l).mem_iff

lemma sortByStart_of_sorted {l : List Clip} (h : List.Sorted startLE l) :
    sortByStart l = l :=
  List.Sorted.insertionSort_eq h

/-- The visual clips of a reflowed list are exactly the packed,
stable-sorted visual clips of the input. -/

lemma filter_isVisual_reflow (x : List Clip) :
    (autoReflowClips x).filter isVisual =
      packFrom 0 (sortByStart (x.filter isVisual)) := by
  unfold autoReflowClips
  rw [List.filter_append]
  have h1 : (packFrom 0 (sortByStart (x.filter isVisual))).filter isVisual =
      packFrom 0 (sortByStart (x.filter isVisual)) := by
    rw [List.filter_eq_self]
    intro c' hc'
    obtain ⟨c0, hc0, _, htype, _⟩ := packFrom_mem_exists hc'
    rw [isVisual_of_type_eq htype]
    exact List.of_mem_filter (mem_sortByStart.mp hc0)
  have h2 : (x.filter (fun c => !isVisual c)).filter isVisual = [] := by
    rw [List.filter_filter]
    apply List.filter_eq_nil_iff.mpr
    intro a ha
    simp
  rw [h1, h2, List.append_nil]

/-- Reflow does not touch the non-visual (audio) records. -/

lemma filter_not_isVisual_reflow (x : List Clip) :
    (autoReflowClips x).filter (fun c => !isVisual c) =
      x.filter (fun c => !isVisual c) := by
  unfold autoReflowClips
  rw [List.filter_append]
  have h1 : (packFrom 0 (sortByStart (x.filter isVisual))).filter
      (fun c => !isVisual c) = [] := by
    apply List.filter_eq_nil_iff.mpr
    intro c' hc'
    obtain ⟨c0, hc0, _, htype, _⟩ := packFrom_mem_exists hc'
    have := List.of_mem_filter (mem_sortByStart.mp hc0)
    simp [isVisual_of_type_eq htype, this]
  have h2 : (x.filter (fun c => !isVisual c)).filter (fun c => !isVisual c) =
      x.filter (fun c => !isVisual c) := by
    rw [List.filter_filter]
    simp
  rw [h1, h2, List.nil_append]

/-- C5 (amended): on a clip list whose visual clips have nonnegative
visible lengths, reflow is idempotent, and it packs the video/image
clips from time 0 with zero gaps and zero overlaps — taken in order of
`startTime` with ties kept in *input order* (the stable-sort order, not
id order): the first clip starts at 0, every visual clip satisfies
`endTime = startTime + (duration − trimStart − trimEnd)`, consecutive
visual clips are exactly adjacent, and every non-visual (audio) clip's
record is unchanged. -/

theorem claim5_reflow_idempotent_packing (x : List Clip)
    (hlen : ∀ c ∈ x, isVisual c = true →
      0 ≤ c.duration - c.trimStart - c.trimEnd) :
    autoReflowClips (autoReflowClips x) = autoReflowClips x ∧
    (∀ c' rest', (autoReflowClips x).filter isVisual = c' :: rest' →
      c'.startTime = 0) ∧
    (∀ c ∈ autoReflowClips x, isVisual c = true →
      c.endTime = c.startTime + (c.duration - c.trimStart - c.trimEnd)) ∧
    List.Chain' (fun a b => b.startTime = a.endTime)
      ((autoReflowClips x).filter isVisual) ∧
    (autoReflowClips x).filter (fun c => !isVisual c) =
      x.filter (fun c => !isVisual c) ∧
    ((autoReflowClips x).filter isVisual).map Clip.id =
      (sortByStart (x.filter isVisual)).map Clip.id := by
  have hlenv : ∀ c ∈ sortByStart (x.filter isVisual),
      0 ≤ c.duration - c.trimStart - c.trimEnd := by
    intro c hc
    have hmem := mem_sortByStart.mp hc
    exact hlen c (List.mem_of_mem_filter hmem) (List.of_mem_filter hmem)
  refine ⟨?_, ?_, ?_, ?_, filter_not_isVisual_reflow x, ?_⟩
  · show autoReflowClips (autoReflowClips x) = autoReflowClips x
    conv_lhs => rw [autoReflowClips]
    rw [filter_isVisual_reflow x, filter_not_isVisual_reflow x,
      sortByStart_of_sorted (packFrom_sorted hlenv), packFrom_packFrom]
    rfl
  · intro c' rest' h
    rw [filter_isVisual_reflow x] at h
    exact packFrom_head_start h
  · intro c hc hvis
    have hcv : c ∈ (autoReflowClips x).filter isVisual :=
      List.mem_filter.mpr ⟨hc, hvis⟩
    rw [filter_isVisual_reflow x] at hcv
    exact packFrom_endTime hcv
  · rw [filter_isVisual_reflow x]
    exact packFrom_chain 0 _
  · rw [filter_isVisual_reflow x]
    exact packFrom_map_id 0 _

/-- C5 counterexample: the claim as stated fails on both counts.
(1) Ties are broken by input order, not by id: reflowing `[tieA, tieB]`
(both start at 0, ids "b" then "a") packs "b" first, so the clip that is
first in id order ("a") starts at 2, not 0.  (2) Without the nonnegative
visible-length restriction reflow is not idempotent: on
`[negA, negB, negC]` (negB has visible length −3) a second reflow
produces different start times than the first. -/

theorem claim5_counterexample :
    (autoReflowClips [tieA, tieB]).map (fun c => (c.id, c.startTime)) =
      [("b", 0), ("a", 2)] ∧ (2 : ℚ) ≠ 0 ∧
    (autoReflowClips (autoReflowClips [negA, negB, negC])).map Clip.startTime ≠
      (autoReflowClips [negA, negB, negC]).map Clip.startTime := by
  refine ⟨?_, by norm_num, ?_⟩
  · norm_num [autoReflowClips, packFrom, sortByStart, List.insertionSort,
      List.orderedInsert, startLE, isVisual, tieA, tieB]
  · norm_num [autoReflowClips, packFrom, sortByStart, List.insertionSort,
      List.orderedInsert, startLE, isVisual, negA, negB, negC]

/-- Witness for C5: on the two-clip list `[tieA, tieB]` (nonnegative
visible lengths) reflow is idempotent and the first packed visual clip
starts at 0. -/

theorem claim5_reflow_idempotent_packing_witness :
    autoReflowClips (autoReflowClips [tieA, tieB]) = autoReflowClips [tieA, tieB] ∧
    (∀ c' rest', (autoReflowClips [tieA, tieB]).filter isVisual = c' :: rest' →
      c'.startTime = 0) := by
  have h := claim5_reflow_idempotent_packing [tieA, tieB] (by
    intro c hc hvis
    rcases List.mem_cons.mp hc with rfl | hc
    · norm_num [tieA]
    · rcases List.mem_cons.mp hc with rfl | hc
      · norm_num [tieB]
      · simp at hc)
  exact ⟨h.1, h.2.1⟩

/-! ## Store invariants (claim C2) -/

lemma ClipInv_of_fields {c' c : Clip} (hd : c'.duration = c.duration)
    (hs : c'.startTime = c.startTime) (he : c'.endTime = c.endTime)
    (hts : c'.trimStart = c.trimStart) (hte : c'.trimEnd = c.trimEnd)
    (h : ClipInv c) : ClipInv c' := by
  unfold ClipInv TrimOK PlacementOK at *
  rw [hd, hs, he, hts, hte]
  exact h

lemma mergeTrack_fields (layered : List Clip) (c : Clip) :
    (mergeTrack layered c).id = c.id ∧ (mergeTrack layered c).type = c.type ∧
    (mergeTrack layered c).url = c.url ∧
    (mergeTrack layered c).duration = c.duration ∧
    (mergeTrack layered c).startTime = c.startTime ∧
    (mergeTrack layered c).endTime = c.endTime ∧
    (mergeTrack layered c).trimStart = c.trimStart ∧
    (mergeTrack layered c).trimEnd = c.trimEnd ∧
    (mergeTrack layered c).gain = c.gain := by
  unfold mergeTrack
  cases (layered.find? (fun a => a.id == c.id)) <;> simp

lemma fixAudioTrackLayers_preserves_inv (x : List Clip)
    (h : ∀ c ∈ x, ClipInv c) : ∀ c' ∈ fixAudioTrackLayers x, ClipInv c' := by
  intro c' hc'
  unfold fixAudioTrackLayers at hc'
  obtain ⟨c, hc, rfl⟩ := List.mem_map.mp hc'
  obtain ⟨_, _, _, hd, hs, he, hts, hte, _⟩ := mergeTrack_fields (layeredClips x) c
  exact ClipInv_of_fields hd hs he hts hte (h c hc)

lemma handleSplitAudio_preserves_inv :
    ∀ (l : List Clip) (clipId : String) (splitTime : ℚ) (now : String),
      (∀ c ∈ l, ClipInv c) →
      ∀ c ∈ handleSplitAudio l clipId splitTime now, ClipInv c := by
  intro l
  induction l with
  | nil => intro clipId splitTime now _ c hc; simp [handleSplitAudio] at hc
  | cons clip rest ih =>
    intro clipId splitTime now h c hc
    by_cases hid : (clip.id == clipId) = true
    · simp only [handleSplitAudio, hid, if_true] at hc
      by_cases hedge : splitTime ≤ clip.startTime + 0.05 ∨
          clip.endTime - 0.05 ≤ splitTime
      · rw [if_pos hedge] at hc
        exact h c hc
      · rw [if_neg hedge] at hc
        push_neg at hedge
        obtain ⟨h1, h2⟩ := hedge
        obtain ⟨⟨hts, hte, hsum⟩, hplace⟩ := h clip (List.mem_cons_self clip rest)
        unfold PlacementOK at hplace
        rcases List.mem_cons.mp hc with rfl | hc'
        · refine ⟨⟨hts, by simp only; linarith, by simp only; linarith⟩, ?_⟩
          unfold PlacementOK
          simp only
          ring
        · rcases List.mem_cons.mp hc' with rfl | hc''
          · refine ⟨⟨by simp only; linarith, hte, by simp only; linarith⟩, ?_⟩
            unfold PlacementOK
            simp only
            linarith
          · exact h c (List.mem_cons_of_mem clip hc'')
    · have hid' : (clip.id == clipId) = false := by
        exact Bool.not_eq_true _ ▸ eq_false_of_ne_true hid
      simp only [handleSplitAudio, hid', Bool.false_eq_true, if_false] at hc
      rcases List.mem_cons.mp hc with rfl | hc'
      · exact h c (List.mem_cons_self c rest)
      · exact ih clipId splitTime now
          (fun a ha => h a (List.mem_cons_of_mem clip ha)) c hc'

lemma autoReflowClips_inv (x : List Clip)
    (hvis : ∀ c ∈ x, isVisual c = true → TrimOK c)
    (hnon : ∀ c ∈ x, isVisual c = false → ClipInv c) :
    ∀ c ∈ autoReflowClips x, ClipInv c := by
  intro c hc
  unfold autoReflowClips at hc
  rcases List.mem_append.mp hc with hp | hn
  · obtain ⟨c0, hc0, _, htype, _, hd, hts, hte, _, _⟩ := packFrom_mem_exists hp
    have hc0x := List.mem_of_mem_filter (mem_sortByStart.mp hc0)
    have hc0vis := List.of_mem_filter (mem_sortByStart.mp hc0)
    obtain ⟨ht1, ht2, ht3⟩ := hvis c0 hc0x hc0vis
    have hend := packFrom_endTime hp
    refine ⟨⟨by rw [hts]; exact ht1, by rw [hte]; exact ht2, ?_⟩, ?_⟩
    · rw [hts, hte, hd]
      exact ht3
    · unfold PlacementOK
      rw [hend]
      ring
  · have hx := List.mem_of_mem_filter hn
    have hnv := List.of_mem_filter hn
    rw [Bool.not_eq_true'] at hnv
    exact hnon c hx hnv

lemma handleMediaUploadAdd_preserves_inv (prev : List Clip) (id url : String)
    (ctype : ClipType) (duration : ℚ) (hd : 0 < duration)
    (h : ∀ c ∈ prev, ClipInv c) :
    ∀ c ∈ handleMediaUploadAdd prev id url ctype duration, ClipInv c := by
  unfold handleMediaUploadAdd
  apply fixAudioTrackLayers_preserves_inv
  intro c hc
  rcases List.mem_append.mp hc with hc | hc
  · exact h c hc
  · rcases List.mem_singleton.mp hc with rfl
    refine ⟨⟨le_refl 0, le_refl 0, by simpa using hd⟩, ?_⟩
    unfold PlacementOK
    simp only
    ring

lemma applyUpdates_type (c : Clip) (u : ClipUpdates) :
    (applyUpdates c u).type = c.type := rfl

lemma applyUpdates_id (c : Clip) (u : ClipUpdates) :
    (applyUpdates c u).id = c.id := rfl

lemma handleClipUpdate_inv_total (prev : List Clip) (clipId : String)
    (u : ClipUpdates) (h : ∀ c ∈ prev, ClipInv c)
    (hupd : ∀ c ∈ prev, c.id = clipId → ClipInv (applyUpdates c u)) :
    ∀ c ∈ handleClipUpdate prev clipId u, ClipInv c := by
  have hall : ∀ c ∈ prev.map
      (fun c => if c.id == clipId then applyUpdates c u else c), ClipInv c := by
    intro c hc
    obtain ⟨c0, hc0, rfl⟩ := List.mem_map.mp hc
    by_cases hm : (c0.id == clipId) = true
    · rw [if_pos hm]
      exact hupd c0 hc0 (eq_of_beq hm)
    · rw [if_neg hm]
      exact h c0 hc0
  intro c hc
  simp only [handleClipUpdate] at hc
  split_ifs at hc
  · exact autoReflowClips_inv _ (fun a ha _ => ((hall a ha).1))
      (fun a ha _ => hall a ha) c hc
  · exact hall c hc

lemma handleClipUpdate_inv_visual (prev : List Clip) (clipId : String)
    (u : ClipUpdates) (t : Clip) (hnodup : (prev.map Clip.id).Nodup)
    (h : ∀ c ∈ prev, ClipInv c)
    (htfind : prev.find? (fun c => c.id == clipId) = some t)
    (htvis : isVisual t = true)
    (haff : (u.startTime.isSome || u.trimStart.isSome || u.trimEnd.isSome) = true)
    (htrim : TrimOK (applyUpdates t u)) :
    ∀ c ∈ handleClipUpdate prev clipId u, ClipInv c := by
  have htmem : t ∈ prev := List.mem_of_find?_eq_some htfind
  have hp := List.find?_some htfind
  have htid : t.id = clipId := eq_of_beq (by simpa using hp)
  have hinj := List.inj_on_of_nodup_map hnodup
  have hupdated : ∀ a ∈ prev.map
      (fun c => if c.id == clipId then applyUpdates c u else c),
      (isVisual a = true → TrimOK a) ∧ (isVisual a = false → ClipInv a) := by
    intro a ha
    obtain ⟨c0, hc0, rfl⟩ := List.mem_map.mp ha
    by_cases hm : (c0.id == clipId) = true
    · have hc0t : c0 = t := hinj hc0 htmem (by rw [eq_of_beq hm, htid])
      subst hc0t
      rw [if_pos hm]
      constructor
      · intro _
        exact htrim
      · intro hnv
        rw [isVisual_of_type_eq (applyUpdates_type c0 u), htvis] at hnv
        exact absurd hnv (by simp)
    · rw [if_neg hm]
      exact ⟨fun _ => (h c0 hc0).1, fun _ => h c0 hc0⟩
  intro c hc
  simp only [handleClipUpdate, htfind, htvis, haff, Bool.and_self, if_true] at hc
  exact autoReflowClips_inv _ (fun a ha => (hupdated a ha).1)
    (fun a ha => (hupdated a ha).2) c hc

/-- C2 (amended): the Store operations preserve the clip invariants with
the following provisos.  Split, track layering, and clip addition (with a
positive asset duration) preserve both invariants outright; reflow
re-establishes the placement invariant for visual clips whenever their
trims satisfy invariant 1, and leaves non-visual clips untouched;
`handleClipUpdate` preserves the invariants only when the applied update
is itself invariant-consistent — for a video/image target with a
timeline-affecting update the reflow recomputes the placement (so the
update only needs valid trims), but for an audio target the raw update is
applied with nothing recomputed, so its `endTime` must be supplied
consistently (the claim's "recomputed, never left stale" fails there —
see the counterexample). -/

theorem claim2_store_invariants :
    (∀ (l : List Clip) (clipId : String) (splitTime : ℚ) (now : String),
      (∀ c ∈ l, ClipInv c) →
      ∀ c ∈ handleSplitAudio l clipId splitTime now, ClipInv c) ∧
    (∀ l : List Clip, (∀ c ∈ l, ClipInv c) →
      ∀ c ∈ fixAudioTrackLayers l, ClipInv c) ∧
    (∀ l : List Clip, (∀ c ∈ l, isVisual c = true → TrimOK c) →
      (∀ c ∈ l, isVisual c = false → ClipInv c) →
      ∀ c ∈ autoReflowClips l, ClipInv c) ∧
    (∀ (prev : List Clip) (id url : String) (ctype : ClipType) (duration : ℚ),
      0 < duration → (∀ c ∈ prev, ClipInv c) →
      ∀ c ∈ handleMediaUploadAdd prev id url ctype duration, ClipInv c) ∧
    (∀ (prev : List Clip) (clipId : String) (u : ClipUpdates),
      (∀ c ∈ prev, ClipInv c) →
      (∀ c ∈ prev, c.id = clipId → ClipInv (applyUpdates c u)) →
      ∀ c ∈ handleClipUpdate prev clipId u, ClipInv c) ∧
    (∀ (prev : List Clip) (clipId : String) (u : ClipUpdates) (t : Clip),
      (prev.map Clip.id).Nodup → (∀ c ∈ prev, ClipInv c) →
      prev.find? (fun c => c.id == clipId) = some t → isVisual t = true →
      (u.startTime.isSome || u.trimStart.isSome || u.trimEnd.isSome) = true →
      TrimOK (applyUpdates t u) →
      ∀ c ∈ handleClipUpdate prev clipId u, ClipInv c) :=
  ⟨handleSplitAudio_preserves_inv, fixAudioTrackLayers_preserves_inv,
    autoReflowClips_inv, handleMediaUploadAdd_preserves_inv,
    handleClipUpdate_inv_total, handleClipUpdate_inv_visual⟩

/-- C2 counterexample: updating an audio clip's `trimStart` through
`handleClipUpdate` does *not* recompute the paired placement field — the
target is not visual, so no reflow runs, `endTime` stays 10, and the
resulting clip violates
`endTime − startTime = assetDuration − trimStart − trimEnd` (10 ≠ 8). -/

theorem claim2_counterexample :
    ClipInv audioClipX ∧
    ¬(∀ c ∈ handleClipUpdate [audioClipX] "a" updX, ClipInv c) := by
  constructor
  · refine ⟨⟨le_refl 0, le_refl 0, by norm_num [audioClipX]⟩, ?_⟩
    norm_num [PlacementOK, audioClipX]
  · intro hfalse
    have hmem : applyUpdates audioClipX updX ∈ handleClipUpdate [audioClipX] "a" updX := by
      simp [handleClipUpdate, audioClipX, isVisual, List.find?]
    have hinv := hfalse _ hmem
    have hplace := hinv.2
    unfold PlacementOK at hplace
    norm_num [applyUpdates, audioClipX, updX] at hplace

/-- Witness for C2: splitting the example clip at time 3 produces a list
every member of which satisfies both invariants. -/

theorem claim2_store_invariants_witness :
    (∀ c ∈ [exampleSplitClip], ClipInv c) ∧
    (∀ c ∈ handleSplitAudio [exampleSplitClip] "p" 3 "t", ClipInv c) := by
  have hinv : ∀ c ∈ [exampleSplitClip], ClipInv c := by
    intro c hc
    rcases List.mem_singleton.mp hc with rfl
    refine ⟨⟨?_, ?_, ?_⟩, ?_⟩ <;> norm_num [exampleSplitClip, PlacementOK]
  exact ⟨hinv, claim2_store_invariants.1 [exampleSplitClip] "p" 3 "t" hinv⟩

lemma layerAccepts_true_iff (layer : List Clip) (clip : Clip) :
    layerAccepts layer clip = true ↔
      ∃ last, layer.getLast? = some last ∧ last.endTime ≤ clip.startTime := by
  unfold layerAccepts
  cases h : layer.getLast? with
  | none => simp
  | some last => simp [h]

lemma pairwise_end_le (layer : List Clip) (s : ℚ)
    (hpw : layer.Pairwise LayerRel) (hstart : ∀ a ∈ layer, a.startTime ≤ s)
    (hlast : ∀ last, layer.getLast? = some last → last.endTime ≤ s) :
    ∀ a ∈ layer, a.endTime ≤ s := by
  induction layer with
  | nil => simp
  | cons x xs ih =>
    intro a ha
    rcases List.mem_cons.mp ha with rfl | ha'
    · cases hxs : xs with
      | nil =>
        apply hlast a
        rw [hxs]
        rfl
      | cons y ys =>
        obtain ⟨g, hg⟩ : ∃ g, xs.getLast? = some g := by
          cases hgl : xs.getLast? with
          | none =>
            rw [hxs] at hgl
            have hs2 : ((y :: ys).getLast?).isSome = true :=
              List.getLast?_isSome.mpr (by simp)
            rw [hgl] at hs2
            simp at hs2
          | some g => exact ⟨g, rfl⟩
        have hgmem : g ∈ xs := List.mem_of_mem_getLast? hg
        have hrel : LayerRel a g := (List.pairwise_cons.mp hpw).1 g hgmem
        have hgs : g.startTime ≤ s := hstart g (List.mem_cons_of_mem _ hgmem)
        exact le_trans hrel hgs
    · cases xs with
      | nil => simp at ha'
      | cons y ys =>
        refine ih (List.Pairwise.of_cons hpw)
          (fun b hb => hstart b (List.mem_cons_of_mem _ hb)) ?_ a ha'
        intro last hl
        apply hlast last
        rw [List.getLast?_cons_cons]
        exact hl

lemma placeClip_forall (P : Clip → Prop) (layers : List (List Clip)) (clip : Clip)
    (hall : ∀ layer ∈ layers, ∀ a ∈ layer, P a) (hclip : P clip) :
    ∀ layer ∈ placeClip layers clip, ∀ a ∈ layer, P a := by
  induction layers with
  | nil =>
    intro layer hlayer a ha
    simp only [placeClip, List.mem_singleton] at hlayer
    subst hlayer
    rcases List.mem_singleton.mp ha with rfl
    exact hclip
  | cons layer0 rest ih =>
    intro layer hlayer a ha
    by_cases hacc : layerAccepts layer0 clip = true
    · simp only [placeClip, hacc, if_true] at hlayer
      rcases List.mem_cons.mp hlayer with rfl | hmem
      · rcases List.mem_append.mp ha with h1 | h1
        · exact hall layer0 (List.mem_cons_self _ _) a h1
        · rcases List.mem_singleton.mp h1 with rfl
          exact hclip
      · exact hall layer (List.mem_cons_of_mem _ hmem) a ha
    · have hacc' : layerAccepts layer0 clip = false := by
        exact Bool.not_eq_true _ ▸ eq_false_of_ne_true hacc
      simp only [placeClip, hacc', Bool.false_eq_true, if_false] at hlayer
      rcases List.mem_cons.mp hlayer with rfl | hmem
      · exact hall layer (List.mem_cons_self _ _) a ha
      · exact ih (fun l hl => hall l (List.mem_cons_of_mem _ hl)) layer hmem a ha

lemma placeClip_pairwise (layers : List (List Clip)) (clip : Clip)
    (hpw : ∀ layer ∈ layers, layer.Pairwise LayerRel)
    (hstart : ∀ layer ∈ layers, ∀ a ∈ layer, a.startTime ≤ clip.startTime) :
    ∀ layer ∈ placeClip layers clip, layer.Pairwise LayerRel := by
  induction layers with
  | nil =>
    intro layer hlayer
    simp only [placeClip, List.mem_singleton] at hlayer
    subst hlayer
    simp
  | cons layer0 rest ih =>
    intro layer hlayer
    by_cases hacc : layerAccepts layer0 clip = true
    · simp only [placeClip, hacc, if_true] at hlayer
      rcases List.mem_cons.mp hlayer with rfl | hmem
      · refine List.pairwise_append.mpr
          ⟨hpw layer0 (List.mem_cons_self _ _), by simp, ?_⟩
        intro a ha b hb
        have hbc : b = clip := List.mem_singleton.mp hb
        rw [hbc]
        obtain ⟨last, hlastq, hle⟩ := (layerAccepts_true_iff layer0 clip).mp hacc
        exact pairwise_end_le layer0 clip.startTime
          (hpw layer0 (List.mem_cons_self _ _))
          (hstart layer0 (List.mem_cons_self _ _))
          (fun l hl => by rw [hlastq] at hl; cases hl; exact hle) a ha
      · exact hpw layer (List.mem_cons_of_mem _ hmem)
    · have hacc' : layerAccepts layer0 clip = false := by
        exact Bool.not_eq_true _ ▸ eq_false_of_ne_true hacc
      simp only [placeClip, hacc', Bool.false_eq_true, if_false] at hlayer
      rcases List.mem_cons.mp hlayer with rfl | hmem
      · exact hpw layer (List.mem_cons_self _ _)
      · exact ih (fun l hl => hpw l (List.mem_cons_of_mem _ hl))
          (fun l hl => hstart l (List.mem_cons_of_mem _ hl)) layer hmem

lemma foldl_place_pairwise (pending : List Clip) (layers : List (List Clip))
    (hsorted : List.Sorted startLE pending)
    (hpw : ∀ layer ∈ layers, layer.Pairwise LayerRel)
    (hbound : ∀ layer ∈ layers, ∀ a ∈ layer, ∀ r ∈ pending,
      a.startTime ≤ r.startTime) :
    ∀ layer ∈ pending.foldl placeClip layers, layer.Pairwise LayerRel := by
  induction pending generalizing layers with
  | nil => exact fun layer h => hpw layer h
  | cons clip rest ih =>
    simp only [List.foldl_cons]
    apply ih (placeClip layers clip) (List.Sorted.of_cons hsorted)
    · exact placeClip_pairwise layers clip hpw
        (fun layer hl a ha => hbound layer hl a ha clip (List.mem_cons_self _ _))
    · apply placeClip_forall (fun a => ∀ r ∈ rest, a.startTime ≤ r.startTime)
        layers clip
        (fun layer hl a ha r hr => hbound layer hl a ha r (List.mem_cons_of_mem _ hr))
      intro r hr
      exact (List.sorted_cons.mp hsorted).1 r hr

lemma buildLayers_pairwise (sorted : List Clip)
    (h : List.Sorted startLE sorted) :
    ∀ layer ∈ buildLayers sorted, layer.Pairwise LayerRel :=
  foldl_place_pairwise sorted [] h (by simp) (by simp)

lemma placeClip_join_perm (layers : List (List Clip)) (clip : Clip) :
    (placeClip layers clip).join.Perm (clip :: layers.join) := by
  induction layers with
  | nil => simp [placeClip]
  | cons layer0 rest ih =>
    by_cases hacc : layerAccepts layer0 clip = true
    · simp only [placeClip, hacc, if_true, List.join_cons]
      rw [List.append_assoc, List.singleton_append]
      exact List.perm_middle
    · have hacc' : layerAccepts layer0 clip = false := by
        exact Bool.not_eq_true _ ▸ eq_false_of_ne_true hacc
      simp only [placeClip, hacc', Bool.false_eq_true, if_false, List.join_cons]
      exact (ih.append_left layer0).trans List.perm_middle

lemma foldl_place_join_perm (pending : List Clip) (layers : List (List Clip)) :
    (pending.foldl placeClip layers).join.Perm (layers.join ++ pending) := by
  induction pending generalizing layers with
  | nil => simp
  | cons clip rest ih =>
    simp only [List.foldl_cons]
    exact ((ih _).trans
      ((placeClip_join_perm layers clip).append_right rest)).trans
      List.perm_middle.symm

lemma buildLayers_join_perm (sorted : List Clip) :
    (buildLayers sorted).join.Perm sorted := by
  simpa using foldl_place_join_perm sorted []

lemma mem_layeredClips_iff {x : List Clip} {m : Clip} :
    m ∈ layeredClips x ↔
      ∃ i layer c', (buildLayers (audioSorted x)).get? i = some layer ∧
        c' ∈ layer ∧ m = { c' with track := i } := by
  unfold layeredClips audioSorted
  rw [List.mem_flatMap]
  constructor
  · rintro ⟨p, hp, hm⟩
    obtain ⟨c', hc', rfl⟩ := List.mem_map.mp hm
    exact ⟨p.1, p.2, c', List.mem_enum_iff_get?.mp hp, hc', rfl⟩
  · rintro ⟨i, layer, c', hget, hc', rfl⟩
    exact ⟨(i, layer), List.mem_enum_iff_get?.mpr hget,
      List.mem_map.mpr ⟨c', hc', rfl⟩⟩

lemma layeredClips_underlying_mem {x : List Clip} {i : ℕ} {layer : List Clip}
    {c' : Clip} (hget : (buildLayers (audioSorted x)).get? i = some layer)
    (hc' : c' ∈ layer) : c' ∈ x ∧ c'.type = ClipType.audio := by
  have hjoin : c' ∈ (buildLayers (audioSorted x)).join :=
    List.mem_join.mpr ⟨layer, List.get?_mem hget, hc'⟩
  have hss : c' ∈ audioSorted x := (buildLayers_join_perm _).mem_iff.mp hjoin
  have hsf := mem_sortByStart.mp hss
  exact ⟨List.mem_of_mem_filter hsf, by simpa using List.of_mem_filter hsf⟩

lemma mergeTrack_audio_found {x : List Clip} (hnodup : (x.map Clip.id).Nodup)
    {c : Clip} (hc : c ∈ x) (hcaudio : c.type = ClipType.audio) :
    ∃ m ∈ layeredClips x,
      mergeTrack (layeredClips x) c = { c with track := m.track } ∧
      m.id = c.id ∧ m.startTime = c.startTime ∧ m.endTime = c.endTime := by
  have hcfa : c ∈ x.filter (fun cc => cc.type == ClipType.audio) :=
    List.mem_filter.mpr ⟨hc, by simp [hcaudio]⟩
  have hcj : c ∈ (buildLayers (audioSorted x)).join :=
    (buildLayers_join_perm _).mem_iff.mpr (mem_sortByStart.mpr hcfa)
  obtain ⟨layer, hlayer, hcl⟩ := List.mem_join.mp hcj
  obtain ⟨i, hgi⟩ := List.mem_iff_get?.mp hlayer
  have hment : ({ c with track := i } : Clip) ∈ layeredClips x :=
    mem_layeredClips_iff.mpr ⟨i, layer, c, hgi, hcl, rfl⟩
  cases hfind : (layeredClips x).find? (fun a => a.id == c.id) with
  | none =>
    have := List.find?_eq_none.mp hfind _ hment
    simp at this
  | some m =>
    have hmmem : m ∈ layeredClips x := List.mem_of_find?_eq_some hfind
    have hmid : m.id = c.id := eq_of_beq (by simpa using List.find?_some hfind)
    obtain ⟨j, layerj, c'', hgj, hc'', hmeq⟩ := mem_layeredClips_iff.mp hmmem
    have hc''x : c'' ∈ x := (layeredClips_underlying_mem hgj hc'').1
    have hc''id : c''.id = c.id := by rw [← hmid, hmeq]
    have hc''c : c'' = c := List.inj_on_of_nodup_map hnodup hc''x hc hc''id
    subst hc''c
    refine ⟨m, hmmem, ?_, hmid, ?_, ?_⟩
    · unfold mergeTrack
      rw [hfind]
    · rw [hmeq]
    · rw [hmeq]

lemma fixAudioTrackLayers_no_overlap (x : List Clip)
    (hnodup : (x.map Clip.id).Nodup) :
    ∀ a ∈ fixAudioTrackLayers x, ∀ b ∈ fixAudioTrackLayers x,
      a.type = ClipType.audio → b.type = ClipType.audio → a.id ≠ b.id →
      a.track = b.track →
      ¬(a.startTime < b.endTime ∧ b.startTime < a.endTime) := by
  intro a ha b hb haud hbud hne htrack
  unfold fixAudioTrackLayers at ha hb
  obtain ⟨ca, hcax, rfl⟩ := List.mem_map.mp ha
  obtain ⟨cb, hcbx, rfl⟩ := List.mem_map.mp hb
  have hta : ca.type = ClipType.audio := by
    rw [← (mergeTrack_fields _ ca).2.1]
    exact haud
  have htb : cb.type = ClipType.audio := by
    rw [← (mergeTrack_fields _ cb).2.1]
    exact hbud
  obtain ⟨ma, hma, haeq, hmaid, hmas, hmae⟩ := mergeTrack_audio_found hnodup hcax hta
  obtain ⟨mb, hmb, hbeq, hmbid, hmbs, hmbe⟩ := mergeTrack_audio_found hnodup hcbx htb
  rw [haeq, hbeq] at hne htrack ⊢
  have htr : ma.track = mb.track := htrack
  have hnab : ca.id ≠ cb.id := hne
  obtain ⟨i, layerA, ca', hgi, hca', hmaeq⟩ := mem_layeredClips_iff.mp hma
  obtain ⟨j, layerB, cb', hgj, hcb', hmbeq⟩ := mem_layeredClips_iff.mp hmb
  have hij : i = j := by
    have h1 : ma.track = i := by rw [hmaeq]
    have h2 : mb.track = j := by rw [hmbeq]
    rw [h1, h2] at htr
    exact htr
  subst hij
  have hlayer_eq : layerA = layerB := by
    rw [hgi] at hgj
    exact (Option.some.injEq _ _ ▸ hgj).symm ▸ rfl
  have hsorted : List.Sorted startLE (audioSorted x) :=
    List.sorted_insertionSort startLE _
  have hpw := buildLayers_pairwise (audioSorted x) hsorted layerA (List.get?_mem hgi)
  have hpw' : layerA.Pairwise (fun u v => LayerRel u v ∨ LayerRel v u) :=
    hpw.imp (fun h => Or.inl h)
  have hsym : Symmetric (fun u v : Clip => LayerRel u v ∨ LayerRel v u) :=
    fun u v h => h.symm
  have hne' : ca' ≠ cb' := by
    intro hcc
    apply hnab
    have e1 : ca'.id = ca.id := by rw [← hmaid, hmaeq]
    have e2 : cb'.id = cb.id := by rw [← hmbid, hmbeq]
    rw [← e1, ← e2, hcc]
  have hrel := List.Pairwise.forall hsym hpw' hca' (hlayer_eq ▸ hcb') hne'
  have hsa : ca.startTime = ca'.startTime := by rw [← hmas, hmaeq]
  have hea : ca.endTime = ca'.endTime := by rw [← hmae, hmaeq]
  have hsb : cb.startTime = cb'.startTime := by rw [← hmbs, hmbeq]
  have heb : cb.endTime = cb'.endTime := by rw [← hmbe, hmbeq]
  rintro ⟨h1, h2⟩
  have h1' : ca.startTime < cb.endTime := h1
  have h2' : cb.startTime < ca.endTime := h2
  unfold LayerRel at hrel
  rcases hrel with hr | hr
  · rw [hea, hsb] at h2'
    linarith
  · rw [heb, hsa] at h1'
    linarith

lemma orderedInsert_map_comm (f : Clip → Clip)
    (hf : ∀ c, (f c).startTime = c.startTime) (a : Clip) (l : List Clip) :
    List.orderedInsert startLE (f a) (l.map f) =
      (List.orderedInsert startLE a l).map f := by
  induction l with
  | nil => rfl
  | cons b t ih =>
    simp only [List.map_cons, List.orderedInsert]
    have hiff : startLE (f a) (f b) ↔ startLE a b := by
      unfold startLE
      rw [hf, hf]
    by_cases h : startLE a b
    · rw [if_pos (hiff.mpr h), if_pos h]
      simp
    · rw [if_neg (fun hh => h (hiff.mp hh)), if_neg h]
      simp only [List.map_cons, ih]

lemma sortByStart_map_comm (f : Clip → Clip)
    (hf : ∀ c, (f c).startTime = c.startTime) (l : List Clip) :
    sortByStart (l.map f) = (sortByStart l).map f := by
  unfold sortByStart
  induction l with
  | nil => rfl
  | cons a t ih =>
    simp only [List.map_cons, List.insertionSort]
    rw [ih, orderedInsert_map_comm f hf]

lemma layerAccepts_map (f : Clip → Clip)
    (hfe : ∀ c, (f c).endTime = c.endTime)
    (hfs : ∀ c, (f c).startTime = c.startTime) (layer : List Clip) (clip : Clip) :
    layerAccepts (layer.map f) (f clip) = layerAccepts layer clip := by
  unfold layerAccepts
  rw [List.getLast?_map]
  cases layer.getLast? with
  | none => rfl
  | some last => simp [hfe, hfs]

lemma placeClip_map (f : Clip → Clip)
    (hfe : ∀ c, (f c).endTime = c.endTime)
    (hfs : ∀ c, (f c).startTime = c.startTime) (layers : List (List Clip))
    (clip : Clip) :
    placeClip (layers.map (List.map f)) (f clip) =
      (placeClip layers clip).map (List.map f) := by
  induction layers with
  | nil => rfl
  | cons layer0 rest ih =>
    simp only [List.map_cons, placeClip, layerAccepts_map f hfe hfs]
    by_cases hacc : layerAccepts layer0 clip = true
    · rw [if_pos hacc, if_pos hacc]
      simp
    · rw [if_neg hacc, if_neg hacc]
      simp only [List.map_cons, ih]

lemma foldl_place_map (f : Clip → Clip)
    (hfe : ∀ c, (f c).endTime = c.endTime)
    (hfs : ∀ c, (f c).startTime = c.startTime) :
    ∀ (pending : List Clip) (layers : List (List Clip)),
      (pending.map f).foldl placeClip (layers.map (List.map f)) =
        (pending.foldl placeClip layers).map (List.map f) := by
  intro pending
  induction pending with
  | nil => intro layers; rfl
  | cons clip rest ih =>
    intro layers
    simp only [List.map_cons, List.foldl_cons]
    rw [placeClip_map f hfe hfs layers clip]
    exact ih (placeClip layers clip)

lemma buildLayers_map (f : Clip → Clip)
    (hfe : ∀ c, (f c).endTime = c.endTime)
    (hfs : ∀ c, (f c).startTime = c.startTime) (sorted : List Clip) :
    buildLayers (sorted.map f) = (buildLayers sorted).map (List.map f) := by
  unfold buildLayers
  simpa using foldl_place_map f hfe hfs sorted []

lemma settrack_mergeTrack (layered : List Clip) (c : Clip) (i : ℕ) :
    ({ mergeTrack layered c with track := i } : Clip) = { c with track := i } := by
  unfold mergeTrack
  cases layered.find? (fun a => a.id == c.id) <;> rfl

lemma layeredClips_map_track_invariant (x : List Clip) (f : Clip → Clip)
    (hfs : ∀ c, (f c).startTime = c.startTime)
    (hfe : ∀ c, (f c).endTime = c.endTime)
    (hft : ∀ c, (f c).type = c.type)
    (hfset : ∀ c i, ({ f c with track := i } : Clip) = { c with track := i }) :
    layeredClips (x.map f) = layeredClips x := by
  unfold layeredClips
  have hfilter : (x.map f).filter (fun c => c.type == ClipType.audio) =
      (x.filter (fun c => c.type == ClipType.audio)).map f := by
    rw [List.map_filter]
    congr 1
    apply List.filter_congr'
    intro c _
    simp [Function.comp, hft]
  rw [hfilter, sortByStart_map_comm f hfs, buildLayers_map f hfe hfs,
    List.enum_map]
  rw [List.flatMap_map]
  apply List.flatMap_congr
  intro p hp
  simp only [Prod.map_fst, Prod.map_snd, id_eq, List.map_map]
  apply List.map_eq_map_iff.mpr
  intro c hc
  exact hfset c p.1

lemma layeredClips_map_mergeTrack (x : List Clip) :
    layeredClips (x.map (mergeTrack (layeredClips x))) = layeredClips x :=
  layeredClips_map_track_invariant x (mergeTrack (layeredClips x))
    (fun c => (mergeTrack_fields _ c).2.2.2.2.1)
    (fun c => (mergeTrack_fields _ c).2.2.2.2.2.1)
    (fun c => (mergeTrack_fields _ c).2.1)
    (fun c i => settrack_mergeTrack (layeredClips x) c i)

lemma mergeTrack_idem (layered : List Clip) (c : Clip) :
    mergeTrack layered (mergeTrack layered c) = mergeTrack layered c := by
  cases hfind : layered.find? (fun a => a.id == c.id) with
  | none =>
    have h1 : mergeTrack layered c = c := by
      unfold mergeTrack
      rw [hfind]
    rw [h1, h1]
  | some m =>
    have h1 : mergeTrack layered c = { c with track := m.track } := by
      unfold mergeTrack
      rw [hfind]
    rw [h1]
    have hfind2 : layered.find?
        (fun a => a.id == ({ c with track := m.track } : Clip).id) = some m := hfind
    unfold mergeTrack
    rw [hfind2]

lemma fixAudioTrackLayers_idem (x : List Clip) :
    fixAudioTrackLayers (fixAudioTrackLayers x) = fixAudioTrackLayers x := by
  conv_lhs => rw [fixAudioTrackLayers, fixAudioTrackLayers]
  rw [layeredClips_map_mergeTrack, List.map_map]
  conv_rhs => rw [fixAudioTrackLayers]
  apply List.map_eq_map_iff.mpr
  intro c _
  exact mergeTrack_idem (layeredClips x) c

/-- C6: track layering never assigns the same track to two distinct audio
clips whose `[startTime, endTime)` intervals overlap (given the data
model's unique ids), and re-running it on its own output is a fixed
point — the greedy first-fit scan (sort by `startTime`, place each clip
in the first layer whose last clip ends no later than the candidate
starts, else open a new layer, set `track` to the layer index) is
reproduced exactly by the embedded definitions. -/

theorem claim6_track_layering (x : List Clip)
    (hnodup : (x.map Clip.id).Nodup) :
    (∀ a ∈ fixAudioTrackLayers x, ∀ b ∈ fixAudioTrackLayers x,
      a.type = ClipType.audio → b.type = ClipType.audio → a.id ≠ b.id →
      a.track = b.track →
      ¬(a.startTime < b.endTime ∧ b.startTime < a.endTime)) ∧
    fixAudioTrackLayers (fixAudioTrackLayers x) = fixAudioTrackLayers x :=
  ⟨fixAudioTrackLayers_no_overlap x hnodup, fixAudioTrackLayers_idem x⟩

/-- Witness for C6 at a concrete two-clip overlapping input. -/

theorem claim6_track_layering_witness :
    (([wAudio1, wAudio2].map Clip.id).Nodup) ∧
    fixAudioTrackLayers (fixAudioTrackLayers [wAudio1, wAudio2]) =
      fixAudioTrackLayers [wAudio1, wAudio2] :=
  ⟨by decide, (claim6_track_layering [wAudio1, wAudio2] (by decide)).2⟩

/-- Witness for C8 at concrete inputs: a call that hits the part_001
cache (in flight or settled) starts no fetch, and two raw events on that
cache fetch at most once per url. -/

theorem claim8_inflight_dedup_witness :
    ("u" ∈ ({ cache := ["u"], fetchLog := ["u"] } : CacheStateB).cache) ∧
    (stepB { cache := ["u"], fetchLog := ["u"] }
        (CacheEvent.call "u")).fetchLog = ["u"] ∧
    (runB [CacheEvent.call "u", CacheEvent.call "u"]).fetchLog.count "u" ≤ 1 :=
  ⟨by decide,
    (claim8_inflight_dedup.2.1 { cache := ["u"], fetchLog := ["u"] } "u"
      (by decide)).1,
    claim8_inflight_dedup.1 [CacheEvent.call "u", CacheEvent.call "u"] "u"⟩
